import Mathlib

/-!
Verification development for the `life-journal` backend encryption core.

Embedded source files:
  * `src/backend/utils/encryption.js` — `encryptData` / `decryptData`
    (AES-256-GCM envelope encryption through Node's `crypto` module)
  * `src/backend/utils/keyManagement.js` — `getMasterKey` / `validateKeyOnStartup`

Modelling conventions:
  * Byte strings are `List Nat` with every element `< 256`.
  * Node `Buffer.from(s, 'hex')` semantics: the string is decoded pair by
    pair; decoding stops silently at the first invalid hex character and a
    dangling trailing nibble is dropped.
  * `JSON.stringify` / `JSON.parse` are modelled on UTF-8 byte lists; JSON
    numbers are modelled as integers (floating-point fractions and exponents
    are out of scope), and the parser accepts a superset of integer literals
    (leading zeros are not rejected).
  * AES-256 is implemented from FIPS-197 and GCM from NIST SP 800-38D,
    including the `J0 = GHASH(IV)` rule for IVs that are not 12 bytes
    (the source uses 16-byte IVs) and Node's accepted GCM tag lengths
    {4, 8, 12, 13, 14, 15, 16} with prefix comparison for short tags.
  * The fresh random IV drawn by `crypto.randomBytes(16)` inside
    `encryptData` is modelled as an explicit input parameter.
-/

namespace LifeJournal

/-! ### Hex encoding and decoding (Node `Buffer` semantics) -/

/-- Value of one hex character (by code point, `0-9`, `a-f`, `A-F`),
accepting both lowercase and uppercase, mirroring Node's buffer hex decoder
and the `/^[0-9a-fA-F]+$/` check. -/
def hexVal (c : Char) : Option Nat :=
  if 48 ≤ c.toNat ∧ c.toNat ≤ 57 then some (c.toNat - 48)
  else if 97 ≤ c.toNat ∧ c.toNat ≤ 102 then some (c.toNat - 87)
  else if 65 ≤ c.toNat ∧ c.toNat ≤ 70 then some (c.toNat - 55)
  else none

/-- Lowercase hex digit for a nibble, as emitted by `Buffer.toString('hex')`. -/
def hexDigitChar (n : Nat) : Char :=
  if n < 10 then Char.ofNat (48 + n) else Char.ofNat (87 + n)

/-- Node `Buffer.from(chars, 'hex')`: decode pairs of hex characters into
bytes, stopping silently at the first invalid character; a dangling last
nibble is dropped. -/
def hexDecodeList : List Char → List Nat
  | [] => []
  | [_] => []
  | c1 :: c2 :: rest =>
    match hexVal c1, hexVal c2 with
    | some hi, some lo => (16 * hi + lo) :: hexDecodeList rest
    | _, _ => []

/-- Node `buffer.toString('hex')`: two lowercase hex digits per byte. -/
def hexEncodeList : List Nat → List Char
  | [] => []
  | b :: bs => hexDigitChar (b / 16) :: hexDigitChar (b % 16) :: hexEncodeList bs

/-- String wrapper for `hexDecodeList`. -/
def hexDecode (s : String) : List Nat := hexDecodeList s.data

/-- String wrapper for `hexEncodeList`. -/
def hexEncode (bs : List Nat) : String := ⟨hexEncodeList bs⟩

/-! ### The JSON value model

`JSON.stringify`-serializable values: `null`, booleans, (integer) numbers,
strings (as UTF-8 byte lists), arrays and objects. Arrays and objects are
separate mutually inductive list types so that all recursions below are
plain structural mutual recursions. -/

mutual
inductive Json where
  | null : Json
  | bool (b : Bool) : Json
  | num (n : Int) : Json
  | str (s : List Nat) : Json
  | arr (xs : JsonArr) : Json
  | obj (kvs : JsonObj) : Json

inductive JsonArr where
  | nil : JsonArr
  | cons (hd : Json) (tl : JsonArr) : JsonArr

inductive JsonObj where
  | nil : JsonObj
  | cons (key : List Nat) (val : Json) (tl : JsonObj) : JsonObj
end

/-- Concatenation of the images of a list-valued function, written out so the
development does not depend on the core library's name for flat-map. -/
def concatMapL (f : α → List β) : List α → List β
  | [] => []
  | x :: xs => f x ++ concatMapL f xs

/-- Decimal digits (as ASCII bytes) of a natural number, most significant
first, as produced by `JSON.stringify` for non-negative integers. -/
def natToDigits (n : Nat) : List Nat :=
  if _h : n < 10 then [48 + n]
  else natToDigits (n / 10) ++ [48 + n % 10]
  termination_by n
  decreasing_by exact Nat.div_lt_self (by omega) (by omega)

/-- Decimal representation of an integer as ASCII bytes. -/
def intToBytes : Int → List Nat
  | .ofNat m => natToDigits m
  | .negSucc m => 45 :: natToDigits (m + 1)

/-- Lowercase hex digit as an ASCII byte. -/
def hexDigitByte (n : Nat) : Nat := if n < 10 then 48 + n else 87 + n

/-- `JSON.stringify` escaping of one string byte: `\"`, `\\`, the short
control escapes `\b \t \n \f \r`, `\u00XX` for other control bytes, and all
other bytes verbatim. -/
def escapeByte (b : Nat) : List Nat :=
  if b = 34 then [92, 34]
  else if b = 92 then [92, 92]
  else if b = 8 then [92, 98]
  else if b = 9 then [92, 116]
  else if b = 10 then [92, 110]
  else if b = 12 then [92, 102]
  else if b = 13 then [92, 114]
  else if b < 32 then [92, 117, 48, 48, 48 + b / 16, hexDigitByte (b % 16)]
  else [b]

/-- Escaped body of a JSON string literal. -/
def escapeBytes (s : List Nat) : List Nat := concatMapL escapeByte s

/-- Quoted JSON string literal for a byte string. -/
def strLit (s : List Nat) : List Nat := 34 :: escapeBytes s ++ [34]

mutual
/-- `JSON.stringify` (no whitespace), producing UTF-8 bytes. -/
def Json.stringify : Json → List Nat
  | .null => [110, 117, 108, 108]
  | .bool true => [116, 114, 117, 101]
  | .bool false => [102, 97, 108, 115, 101]
  | .num n => intToBytes n
  | .str s => strLit s
  | .arr .nil => [91, 93]
  | .arr (.cons x xs) => 91 :: stringifyItems (.cons x xs) ++ [93]
  | .obj .nil => [123, 125]
  | .obj (.cons k v kvs) => 123 :: stringifyMembers (.cons k v kvs) ++ [125]

/-- Comma-separated serializations of a nonempty array's elements. -/
def stringifyItems : JsonArr → List Nat
  | .nil => []
  | .cons x .nil => x.stringify
  | .cons x (.cons y ys) => x.stringify ++ 44 :: stringifyItems (.cons y ys)

/-- Comma-separated `"key":value` serializations of a nonempty object. -/
def stringifyMembers : JsonObj → List Nat
  | .nil => []
  | .cons k v .nil => strLit k ++ 58 :: v.stringify
  | .cons k v (.cons k2 v2 rest) =>
    (strLit k ++ 58 :: v.stringify) ++ 44 :: stringifyMembers (.cons k2 v2 rest)
end

/-! ### The JSON parser (model of `JSON.parse` on UTF-8 bytes) -/

/-- JSON whitespace bytes: space, tab, line feed, carriage return. -/
def isWsByte (b : Nat) : Bool := b = 32 || b = 9 || b = 10 || b = 13

/-- Skip leading JSON whitespace. -/
def skipWs : List Nat → List Nat
  | [] => []
  | b :: rest => if isWsByte b then skipWs rest else b :: rest

/-- ASCII decimal digit test on a byte. -/
def isDigitByte (b : Nat) : Bool := 48 ≤ b && b ≤ 57

/-- Hex digit value of an ASCII byte (both cases), for `\uXXXX` escapes. -/
def unhexByte (b : Nat) : Option Nat :=
  if 48 ≤ b && b ≤ 57 then some (b - 48)
  else if 97 ≤ b && b ≤ 102 then some (b - 87)
  else if 65 ≤ b && b ≤ 70 then some (b - 55)
  else none

/-- UTF-8 encoding of a code point below `2^16`. -/
def utf8Encode (n : Nat) : List Nat :=
  if n < 128 then [n]
  else if n < 2048 then [192 + n / 64, 128 + n % 64]
  else [224 + n / 4096, 128 + (n / 64) % 64, 128 + n % 64]

/-- Greedy run of decimal digits with an accumulator. -/
def parseDigits : List Nat → Nat → Nat × List Nat
  | b :: rest, acc =>
    if isDigitByte b then parseDigits rest (acc * 10 + (b - 48)) else (acc, b :: rest)
  | [], acc => (acc, [])

/-- Body of a JSON string literal after the opening quote: bytes up to the
closing quote, with escape processing. Raw control bytes are rejected, as in
`JSON.parse`. -/
def parseStr : List Nat → Option (List Nat × List Nat)
  | [] => none
  | b :: rest =>
    if b = 34 then some ([], rest)
    else if b = 92 then
      match rest with
      | [] => none
      | e :: r =>
        if e = 34 then (parseStr r).map (fun p => (34 :: p.1, p.2))
        else if e = 92 then (parseStr r).map (fun p => (92 :: p.1, p.2))
        else if e = 47 then (parseStr r).map (fun p => (47 :: p.1, p.2))
        else if e = 98 then (parseStr r).map (fun p => (8 :: p.1, p.2))
        else if e = 116 then (parseStr r).map (fun p => (9 :: p.1, p.2))
        else if e = 110 then (parseStr r).map (fun p => (10 :: p.1, p.2))
        else if e = 102 then (parseStr r).map (fun p => (12 :: p.1, p.2))
        else if e = 114 then (parseStr r).map (fun p => (13 :: p.1, p.2))
        else if e = 117 then
          match r with
          | h1 :: h2 :: h3 :: h4 :: r2 =>
            match unhexByte h1, unhexByte h2, unhexByte h3, unhexByte h4 with
            | some a, some b2, some c, some d =>
              (parseStr r2).map (fun p => (utf8Encode (4096 * a + 256 * b2 + 16 * c + d) ++ p.1, p.2))
            | _, _, _, _ => none
          | _ => none
        else none
    else if b < 32 then none
    else (parseStr rest).map (fun p => (b :: p.1, p.2))

mutual
/-- One JSON value, by recursion on a fuel bound (`JSON.parse` grammar with
integer numbers; the branch tests are mutually exclusive, so their order is
immaterial). -/
def parseVal : Nat → List Nat → Option (Json × List Nat)
  | 0, _ => none
  | fuel + 1, bs =>
    match skipWs bs with
    | [] => none
    | b :: rest =>
      if isDigitByte b then
        let p := parseDigits (b :: rest) 0
        some (.num (Int.ofNat p.1), p.2)
      else if b = 45 then
        match rest with
        | [] => none
        | c :: _ =>
          if isDigitByte c then
            let p := parseDigits rest 0
            some (.num (Int.negOfNat p.1), p.2)
          else none
      else if b = 110 then
        match rest with
        | 117 :: 108 :: 108 :: r => some (.null, r)
        | _ => none
      else if b = 116 then
        match rest with
        | 114 :: 117 :: 101 :: r => some (.bool true, r)
        | _ => none
      else if b = 102 then
        match rest with
        | 97 :: 108 :: 115 :: 101 :: r => some (.bool false, r)
        | _ => none
      else if b = 34 then (parseStr rest).map (fun p => (.str p.1, p.2))
      else if b = 91 then
        match skipWs rest with
        | 93 :: r => some (.arr .nil, r)
        | other => (parseItems fuel other).map (fun p => (.arr p.1, p.2))
      else if b = 123 then
        match skipWs rest with
        | 125 :: r => some (.obj .nil, r)
        | other => (parseMembers fuel other).map (fun p => (.obj p.1, p.2))
      else none

/-- Elements of a nonempty JSON array, consuming the closing bracket. -/
def parseItems : Nat → List Nat → Option (JsonArr × List Nat)
  | 0, _ => none
  | fuel + 1, bs =>
    match parseVal fuel bs with
    | none => none
    | some (v, r) =>
      match skipWs r with
      | 44 :: r2 => (parseItems fuel r2).map (fun p => (.cons v p.1, p.2))
      | 93 :: r2 => some (.cons v .nil, r2)
      | _ => none

/-- Members of a nonempty JSON object, consuming the closing brace. -/
def parseMembers : Nat → List Nat → Option (JsonObj × List Nat)
  | 0, _ => none
  | fuel + 1, bs =>
    match skipWs bs with
    | 34 :: rest =>
      (match parseStr rest with
      | none => none
      | some (k, r) =>
        match skipWs r with
        | 58 :: r2 =>
          (match parseVal fuel r2 with
          | none => none
          | some (v, r3) =>
            match skipWs r3 with
            | 44 :: r4 => (parseMembers fuel r4).map (fun p => (.cons k v p.1, p.2))
            | 125 :: r4 => some (.cons k v .nil, r4)
            | _ => none)
        | _ => none)
    | _ => none
end

/-- `JSON.parse` on UTF-8 bytes: one value, then only whitespace may remain. -/
def Json.parse (bs : List Nat) : Option Json :=
  match parseVal (bs.length + 1) bs with
  | some (v, rest) => if skipWs rest = [] then some v else none
  | none => none

/-! ### AES-256 (FIPS-197)

`encryptData` / `decryptData` call Node's `crypto.createCipheriv` /
`createDecipheriv` with algorithm `'aes-256-gcm'`; the cipher itself lives in
OpenSSL, so it is embedded here directly from its public definition
(FIPS-197, and NIST SP 800-38D for GCM below). Bytes are `Nat` values below
256; the AES state is a flat 16-byte list in input order (`s[r + 4*c]` is
state row `r`, column `c`). -/

/-- Multiplication by `x` in GF(2^8) modulo `x^8 + x^4 + x^3 + x + 1`. -/
def xtime (a : Nat) : Nat := ((a <<< 1) ^^^ (if 128 ≤ a then 0x1b else 0)) &&& 255

/-- GF(2^8) product via shift-and-add. -/
def gf8mul (a b : Nat) : Nat :=
  ((List.range 8).foldl (fun st _ =>
    let acc := if st.2.2 % 2 = 1 then st.1 ^^^ st.2.1 else st.1
    (acc, xtime st.2.1, st.2.2 / 2)) (0, a, b)).1

/-- GF(2^8) power by square-and-multiply (the fuel bounds the number of
squarings; nine suffice for every exponent below 512). -/
def gf8powAux : Nat → Nat → Nat → Nat
  | 0, _, _ => 1
  | fuel + 1, a, n =>
    if n = 0 then 1
    else
      let h := gf8powAux fuel a (n / 2)
      let h2 := gf8mul h h
      if n % 2 = 1 then gf8mul a h2 else h2

/-- GF(2^8) power. -/
def gf8pow (a n : Nat) : Nat := gf8powAux 9 a n

/-- Rotate a byte left by `n` bits. -/
def rotl8 (x n : Nat) : Nat := ((x <<< n) ||| (x >>> (8 - n))) &&& 255

/-- The AES S-box from its FIPS-197 definition: the GF(2^8) multiplicative
inverse (`b^254`, with `0 ↦ 0`) followed by the affine transformation. -/
def sboxMath (b : Nat) : Nat :=
  let inv := gf8pow b 254
  inv ^^^ rotl8 inv 1 ^^^ rotl8 inv 2 ^^^ rotl8 inv 3 ^^^ rotl8 inv 4 ^^^ 0x63

/-- The 256 S-box bytes packed into one number, byte `b` at bits
`[8*b, 8*b+8)`; `sbox_matches_sboxMath` below checks it against the
mathematical definition. -/
def sboxPacked : Nat := 0x16bb54b00f2d99416842e6bf0d89a18cdf2855cee9871e9b948ed9691198f8e19e1dc186b95735610ef6034866b53e708a8bbd4b1f74dde8c6b4a61c2e2578ba08ae7a65eaf4566ca94ed58d6d37c8e779e4959162acd3c25c2406490a3a32e0db0b5ede14b8ee4688902a22dc4f816073195d643d7ea7c41744975fec130ccdd2f3ff1021dab6bcf5389d928f40a351a89f3c507f02f94585334d43fbaaefd0cf584c4a39becb6a5bb1fc20ed00d153842fe329b3d63b52a05a6e1b1a2c830975b227ebe28012079a059618c323c7041531d871f1e5a534ccf73f362693fdb7c072a49cafa2d4adf04759fa7dc982ca76abd7fe2b670130c56f6bf27b777c63

/-- S-box lookup. -/
def sbox (b : Nat) : Nat := (sboxPacked >>> (8 * b)) &&& 255

/-- Apply the S-box to each byte of a 32-bit word. -/
def subWord (w : Nat) : Nat :=
  (sbox ((w >>> 24) &&& 255) <<< 24) ||| (sbox ((w >>> 16) &&& 255) <<< 16) |||
  (sbox ((w >>> 8) &&& 255) <<< 8) ||| sbox (w &&& 255)

/-- Rotate a 32-bit word left by one byte. -/
def rotWord (w : Nat) : Nat := ((w <<< 8) ||| (w >>> 24)) &&& 0xffffffff

/-- Round-constant bytes `01, 02, 04, ...`. -/
def rconByte : Nat → Nat
  | 0 => 1
  | n + 1 => xtime (rconByte n)

/-- Big-endian 32-bit word from four bytes. -/
def word4 (b0 b1 b2 b3 : Nat) : Nat := (((b0 <<< 8) ||| b1) <<< 8 ||| b2) <<< 8 ||| b3

/-- The eight initial key-schedule words of a 32-byte key. -/
def keyWords (key : List Nat) : List Nat :=
  (List.range 8).map (fun i =>
    word4 (key.getD (4*i) 0) (key.getD (4*i+1) 0) (key.getD (4*i+2) 0) (key.getD (4*i+3) 0))

/-- AES-256 key expansion: 60 round-key words (`Nk = 8`, `Nr = 14`). -/
def expandKey (key : List Nat) : List Nat :=
  (List.range 52).foldl (fun ws j =>
    let i := j + 8
    let t := ws.getD (i - 1) 0
    let t :=
      if i % 8 = 0 then subWord (rotWord t) ^^^ (rconByte (i / 8 - 1) <<< 24)
      else if i % 8 = 4 then subWord t
      else t
    ws ++ [ws.getD (i - 8) 0 ^^^ t]) (keyWords key)

/-- SubBytes. -/
def subBytes (s : List Nat) : List Nat := s.map sbox

/-- ShiftRows: row `r` rotates left by `r`; `out[r + 4c] = in[r + 4((c+r) % 4)]`. -/
def shiftRows (s : List Nat) : List Nat :=
  (List.range 16).map (fun i => s.getD (i % 4 + 4 * ((i / 4 + i % 4) % 4)) 0)

/-- MixColumns over each of the four columns. -/
def mixColumns (s : List Nat) : List Nat :=
  concatMapL (fun c =>
    let a0 := s.getD (4*c) 0
    let a1 := s.getD (4*c+1) 0
    let a2 := s.getD (4*c+2) 0
    let a3 := s.getD (4*c+3) 0
    [xtime a0 ^^^ (xtime a1 ^^^ a1) ^^^ a2 ^^^ a3,
     a0 ^^^ xtime a1 ^^^ (xtime a2 ^^^ a2) ^^^ a3,
     a0 ^^^ a1 ^^^ xtime a2 ^^^ (xtime a3 ^^^ a3),
     (xtime a0 ^^^ a0) ^^^ a1 ^^^ a2 ^^^ xtime a3]) (List.range 4)

/-- Bytes of round key `round` (word `w[4*round + c]` feeds column `c`). -/
def roundKeyBytes (ws : List Nat) (round : Nat) : List Nat :=
  (List.range 16).map (fun i => (ws.getD (4 * round + i / 4) 0 >>> (24 - 8 * (i % 4))) &&& 255)

/-- AddRoundKey. -/
def addRoundKey (ws : List Nat) (round : Nat) (s : List Nat) : List Nat :=
  List.zipWith Nat.xor s (roundKeyBytes ws round)

/-- AES-256 block encryption: initial AddRoundKey, 13 full rounds, and a
final round without MixColumns. -/
def aesEncryptBlock (ws : List Nat) (input : List Nat) : List Nat :=
  let s0 := addRoundKey ws 0 input
  let s := (List.range 13).foldl
    (fun s r => addRoundKey ws (r + 1) (mixColumns (shiftRows (subBytes s)))) s0
  addRoundKey ws 14 (shiftRows (subBytes s))

/-! ### GCM (NIST SP 800-38D) -/

/-- Big-endian byte-list to number. -/
def bytesToNatBE (bs : List Nat) : Nat := bs.foldl (fun acc b => acc * 256 + b) 0

/-- Number to a big-endian byte list of the given length. -/
def natToBytesBE (len n : Nat) : List Nat :=
  (List.range len).map (fun i => (n >>> (8 * (len - 1 - i))) &&& 255)

/-- The GCM reduction constant `R = 11100001 ∥ 0^120`. -/
def gfR : Nat := 0xe1 <<< 120

/-- GF(2^128) product of two blocks (SP 800-38D algorithm 1), blocks read as
big-endian 128-bit numbers. -/
def gfMul (x y : Nat) : Nat :=
  ((List.range 128).foldl (fun zv i =>
    let z := if x.testBit (127 - i) then zv.1 ^^^ zv.2 else zv.1
    let v := if zv.2 % 2 = 1 then (zv.2 >>> 1) ^^^ gfR else zv.2 >>> 1
    (z, v)) (0, y)).1

/-- GHASH over a list of blocks. -/
def ghash (h : Nat) (blocks : List Nat) : Nat :=
  blocks.foldl (fun y b => gfMul (y ^^^ b) h) 0

/-- Split a byte string into 128-bit blocks, zero-padding the last one
(written with an explicit sixteen-element pattern so that the recursion is
structural and the kernel can evaluate it). -/
def toBlocks : List Nat → List Nat
  | [] => []
  | b0 :: b1 :: b2 :: b3 :: b4 :: b5 :: b6 :: b7 ::
      b8 :: b9 :: b10 :: b11 :: b12 :: b13 :: b14 :: b15 :: rest =>
    bytesToNatBE [b0, b1, b2, b3, b4, b5, b6, b7, b8, b9, b10, b11, b12, b13, b14, b15] ::
      toBlocks rest
  | bs => [bytesToNatBE (bs ++ List.replicate (16 - bs.length) 0)]

/-- GCM hash subkey `H = CIPH_K(0^128)`. -/
def gcmH (ws : List Nat) : Nat := bytesToNatBE (aesEncryptBlock ws (List.replicate 16 0))

/-- The pre-counter block: `IV ∥ 0^31 ∥ 1` for 12-byte IVs, otherwise
`GHASH(IV ∥ padding ∥ [len(IV)]_64)`. The source always passes a 16-byte IV,
so the second branch is the live one. -/
def gcmJ0 (ws : List Nat) (iv : List Nat) : Nat :=
  if iv.length = 12 then (bytesToNatBE iv) <<< 32 ||| 1
  else ghash (gcmH ws) (toBlocks iv ++ [8 * iv.length])

/-- Increment the low 32 bits of a block. -/
def inc32 (b : Nat) : Nat := (b >>> 32) <<< 32 ||| ((b % 2 ^ 32 + 1) % 2 ^ 32)

/-- Iterated `inc32`. -/
def inc32Iter : Nat → Nat → Nat
  | 0, b => b
  | n + 1, b => inc32 (inc32Iter n b)

/-- First `n` bytes of the CTR keystream starting at counter block `icb`. -/
def keystream (ws : List Nat) (icb : Nat) (n : Nat) : List Nat :=
  (concatMapL (fun i => aesEncryptBlock ws (natToBytesBE 16 (inc32Iter i icb)))
    (List.range ((n + 15) / 16))).take n

/-- GCTR: XOR the data with the keystream (its own inverse). -/
def gctr (ws : List Nat) (icb : Nat) (data : List Nat) : List Nat :=
  List.zipWith Nat.xor data (keystream ws icb data.length)

/-- The 16-byte GCM authentication tag for ciphertext `c` with no associated
data: `MSB_128(CIPH_K(J0) ⊕ GHASH(pad(C) ∥ [0]_64 ∥ [len(C)]_64))`. -/
def gcmTag (ws : List Nat) (j0 : Nat) (c : List Nat) : List Nat :=
  let s := ghash (gcmH ws) (toBlocks c ++ [8 * c.length])
  natToBytesBE 16 (bytesToNatBE (aesEncryptBlock ws (natToBytesBE 16 j0)) ^^^ s)

/-! ### Known-answer checks for the embedded cipher -/

set_option maxRecDepth 100000 in
/-- The packed S-box agrees with the FIPS-197 mathematical definition
(inverse in GF(2^8) followed by the affine transformation) on every byte. -/
theorem sbox_matches_sboxMath : ∀ b < 256, sbox b = sboxMath b := by decide

/-! ### The embedded source functions -/

/-- Error outcomes of `encryptData` / `decryptData`: `invalidKeyLength` and
`invalidIvLength` are `createCipheriv` / `createDecipheriv` failures,
`invalidTagLength` is `setAuthTag`'s rejection, `authenticationError` is the
tag-mismatch failure thrown by `decipher.final`, and `deserializationError`
is a `JSON.parse` failure. -/
inductive CryptoError where
  | invalidKeyLength
  | invalidIvLength
  | invalidTagLength
  | authenticationError
  | deserializationError
deriving DecidableEq

/-- The envelope object returned by `encryptData`: three hex strings. -/
structure Envelope where
  encryptedData : String
  iv : String
  authTag : String
deriving DecidableEq

/-- Node accepts GCM tags of 32, 64 or 96–128 bits when no `authTagLength`
option was given to `createDecipheriv` (ad-hoc shorter lengths were removed
by deprecation DEP0090). -/
def validGcmTagLength (n : Nat) : Bool := n == 4 || n == 8 || (12 ≤ n && n ≤ 16)

/-- `encryptData(data, masterKey)` of `src/backend/utils/encryption.js`
lines 2–14. The fresh 16-byte random IV drawn from `crypto.randomBytes(16)`
is the explicit `randIv` argument; the master key is hex-decoded with
`Buffer.from(masterKey, 'hex')` and `createCipheriv('aes-256-gcm', ...)`
rejects key material that is not 32 bytes and empty IVs. The plaintext is
`JSON.stringify(data)` as UTF-8 bytes. -/
def encryptData (randIv : List Nat) (data : Json) (masterKey : String) :
    Except CryptoError Envelope :=
  if (hexDecode masterKey).length ≠ 32 then .error .invalidKeyLength
  else if randIv.length = 0 then .error .invalidIvLength
  else
    let ws := expandKey (hexDecode masterKey)
    let j0 := gcmJ0 ws randIv
    let ct := gctr ws (inc32 j0) (Json.stringify data)
    .ok ⟨hexEncode ct, hexEncode randIv, hexEncode (gcmTag ws j0 ct)⟩

/-- The tag `decryptData` recomputes over the envelope's ciphertext. -/
def decTagExpected (env : Envelope) (k : String) : List Nat :=
  let ws := expandKey (hexDecode k)
  gcmTag ws (gcmJ0 ws (hexDecode env.iv)) (hexDecode env.encryptedData)

/-- The plaintext bytes `decryptData` recovers before `JSON.parse`. -/
def decPlaintext (env : Envelope) (k : String) : List Nat :=
  let ws := expandKey (hexDecode k)
  gctr ws (inc32 (gcmJ0 ws (hexDecode env.iv))) (hexDecode env.encryptedData)

/-- `decryptData(encrypted, masterKey)` of `src/backend/utils/encryption.js`
lines 15–26: hex-decode the fields (Node buffer semantics: silent truncation
at invalid characters), fail on bad key length, empty IV or an unacceptable
tag length, fail with the authentication error when the stored tag differs
from the matching prefix of the recomputed tag (`decipher.final`), and
finally `JSON.parse` the decrypted bytes. -/
def decryptData (env : Envelope) (k : String) : Except CryptoError Json :=
  if (hexDecode k).length ≠ 32 then .error .invalidKeyLength
  else if (hexDecode env.iv).length = 0 then .error .invalidIvLength
  else if validGcmTagLength (hexDecode env.authTag).length = false then
    .error .invalidTagLength
  else if hexDecode env.authTag =
      (decTagExpected env k).take (hexDecode env.authTag).length then
    match Json.parse (decPlaintext env k) with
    | some v => .ok v
    | none => .error .deserializationError
  else .error .authenticationError

/-- Message of the missing-key error of `getMasterKey`. -/
def keyMissingMsg : String := "ENCRYPTION_MASTER_KEY is not set in environment variables"

/-- Fixed prefix of the wrong-length error message of `getMasterKey`. -/
def keyLengthMsgPrefix : String :=
  "ENCRYPTION_MASTER_KEY must be 64 hex characters (32 bytes). Got "

/-- Message of the wrong-length error of `getMasterKey`. -/
def keyLengthMsg (n : Nat) : String := keyLengthMsgPrefix ++ (toString n ++ " characters.")

/-- Message of the non-hex error of `getMasterKey`. -/
def keyHexMsg : String := "ENCRYPTION_MASTER_KEY must be a valid hexadecimal string"

/-- Hex-character test matching the regular expression `[0-9a-fA-F]` (by
code point). -/
def isHexChar (c : Char) : Bool :=
  (48 ≤ c.toNat && c.toNat ≤ 57) || (97 ≤ c.toNat && c.toNat ≤ 102) ||
    (65 ≤ c.toNat && c.toNat ≤ 70)

/-- `getMasterKey()` of `src/backend/utils/keyManagement.js` lines 6–26.
The environment variable `process.env.ENCRYPTION_MASTER_KEY` is the `env`
argument; JavaScript's `!key` treats both an unset variable and the empty
string as missing. On success the raw string is returned. String length is
Lean's character count, which agrees with JavaScript's UTF-16 length on all
ASCII strings and in particular on every string that can pass the hex
check. -/
def getMasterKey (env : Option String) : Except String String :=
  match env with
  | none => .error keyMissingMsg
  | some key =>
    if key = "" then .error keyMissingMsg
    else if key.length ≠ 64 then .error (keyLengthMsg key.length)
    else if (key.data.all isHexChar) = false then .error keyHexMsg
    else .ok key

/-- `validateKeyOnStartup()` of `src/backend/utils/keyManagement.js` lines
28–37: call `getMasterKey`, return `true` on success and `false` on any
error (the log lines are side effects outside the model). -/
def validateKeyOnStartup (env : Option String) : Bool :=
  match getMasterKey env with
  | .ok _ => true
  | .error _ => false

/-! ### Lemmas about the hex codec -/

theorem hexVal_hexDigitChar : ∀ n < 16, hexVal (hexDigitChar n) = some n := by decide

theorem hexVal_lt (c : Char) (n : Nat) (h : hexVal c = some n) : n < 16 := by
  unfold hexVal at h
  split_ifs at h <;> simp_all <;> omega

theorem isHexChar_eq_isSome (c : Char) : isHexChar c = (hexVal c).isSome := by
  unfold isHexChar hexVal
  split_ifs <;> simp_all <;> omega

theorem hexDecodeList_hexEncodeList (bs : List Nat) (h : ∀ b ∈ bs, b < 256) :
    hexDecodeList (hexEncodeList bs) = bs := by
  induction bs with
  | nil => rfl
  | cons b bs ih =>
    have hb : b < 256 := h b (by simp)
    have h1 : hexVal (hexDigitChar (b / 16)) = some (b / 16) := hexVal_hexDigitChar _ (by omega)
    have h2 : hexVal (hexDigitChar (b % 16)) = some (b % 16) := hexVal_hexDigitChar _ (by omega)
    simp [hexEncodeList, hexDecodeList, h1, h2, ih (fun x hx => h x (by simp [hx]))]
    omega

theorem hexDecode_hexEncode (bs : List Nat) (h : ∀ b ∈ bs, b < 256) :
    hexDecode (hexEncode bs) = bs := by
  simpa [hexDecode, hexEncode] using hexDecodeList_hexEncodeList bs h

theorem hexDecodeList_length_of_hex :
    ∀ cs : List Char, (∀ c ∈ cs, isHexChar c = true) →
      (hexDecodeList cs).length = cs.length / 2
  | [], _ => rfl
  | [_], _ => by simp [hexDecodeList]
  | c1 :: c2 :: rest, h => by
    have e1 : (hexVal c1).isSome = true := by
      rw [← isHexChar_eq_isSome]; exact h c1 (by simp)
    have e2 : (hexVal c2).isSome = true := by
      rw [← isHexChar_eq_isSome]; exact h c2 (by simp)
    obtain ⟨n1, hn1⟩ := Option.isSome_iff_exists.mp e1
    obtain ⟨n2, hn2⟩ := Option.isSome_iff_exists.mp e2
    have := hexDecodeList_length_of_hex rest (fun c hc => h c (by simp [hc]))
    simp [hexDecodeList, hn1, hn2, this]
    omega

/-- Evaluate the decoder after mapping every character to its hex value. -/
def hexDecodeVals : List (Option Nat) → List Nat
  | v1 :: v2 :: rest =>
    match v1, v2 with
    | some hi, some lo => (16 * hi + lo) :: hexDecodeVals rest
    | _, _ => []
  | _ => []

theorem hexDecodeList_eq_vals :
    ∀ cs : List Char, hexDecodeList cs = hexDecodeVals (cs.map hexVal)
  | [] => rfl
  | [_] => rfl
  | c1 :: c2 :: rest => by
    rcases h1 : hexVal c1 with _ | n1 <;> rcases h2 : hexVal c2 with _ | n2 <;>
      simp [hexDecodeList, hexDecodeVals, h1, h2, hexDecodeList_eq_vals rest]

theorem hexDecodeList_congr (cs ds : List Char)
    (h : List.Forall₂ (fun a b => hexVal a = hexVal b) cs ds) :
    hexDecodeList cs = hexDecodeList ds := by
  rw [hexDecodeList_eq_vals, hexDecodeList_eq_vals]
  congr 1
  induction h with
  | nil => rfl
  | cons h1 _ ih => simp [List.map, h1, ih]

theorem hexEncodeList_take (bs : List Nat) (m : Nat) :
    hexEncodeList (bs.take m) = (hexEncodeList bs).take (2 * m) := by
  induction bs generalizing m with
  | nil => simp [hexEncodeList]
  | cons b bs ih =>
    cases m with
    | zero => simp [hexEncodeList]
    | succ m =>
      rw [show 2 * (m + 1) = (2 * m + 1) + 1 by omega]
      simp [hexEncodeList, List.take_succ_cons, ih m]

theorem hexEncodeList_length (bs : List Nat) :
    (hexEncodeList bs).length = 2 * bs.length := by
  induction bs with
  | nil => rfl
  | cons b bs ih => simp [hexEncodeList, ih]; omega

theorem hexEncodeList_drop (bs : List Nat) (m : Nat) :
    hexEncodeList (bs.drop m) = (hexEncodeList bs).drop (2 * m) := by
  induction bs generalizing m with
  | nil => simp [hexEncodeList]
  | cons b bs ih =>
    cases m with
    | zero => simp
    | succ m =>
      rw [show 2 * (m + 1) = (2 * m + 1) + 1 by omega]
      simp [hexEncodeList, List.drop_succ_cons, ih m]

theorem hexDecodeList_append (bs : List Nat) (t : List Char) (h : ∀ b ∈ bs, b < 256) :
    hexDecodeList (hexEncodeList bs ++ t) = bs ++ hexDecodeList t := by
  induction bs with
  | nil => rfl
  | cons b bs ih =>
    have hb : b < 256 := h b (by simp)
    have h1 : hexVal (hexDigitChar (b / 16)) = some (b / 16) := hexVal_hexDigitChar _ (by omega)
    have h2 : hexVal (hexDigitChar (b % 16)) = some (b % 16) := hexVal_hexDigitChar _ (by omega)
    simp [hexEncodeList, hexDecodeList, h1, h2, ih (fun x hx => h x (by simp [hx]))]
    omega

/-! ### Lemmas: the parser inverts `stringify` -/

/-- Bool-valued test that a rest-of-input does not begin with a digit (the
one follow-set condition number parsing needs). -/
def headNotDigit : List Nat → Bool
  | [] => true
  | b :: _ => !isDigitByte b

theorem skipWs_cons_of (b : Nat) (t : List Nat) (h : isWsByte b = false) :
    skipWs (b :: t) = b :: t := by
  simp [skipWs, h]

theorem parseDigits_natToDigits (n : Nat) :
    ∀ (acc : Nat) (r : List Nat),
      parseDigits (natToDigits n ++ r) acc =
        parseDigits r (acc * 10 ^ (natToDigits n).length + n) := by
  induction n using Nat.strong_induction_on with
  | _ n ih =>
    intro acc r
    by_cases h : n < 10
    · rw [natToDigits]
      simp only [h, dite_true]
      have hd : isDigitByte (48 + n) = true := by simp [isDigitByte]; omega
      simp [parseDigits, hd]
    · rw [natToDigits]
      simp only [h, dite_false]
      rw [List.append_assoc, ih (n / 10) (Nat.div_lt_self (by omega) (by omega))]
      have hd : isDigitByte (48 + n % 10) = true := by simp [isDigitByte]; omega
      simp [parseDigits, hd]
      congr 1
      rw [pow_succ]
      have hmod := Nat.div_add_mod n 10
      have hassoc : acc * (10 ^ (natToDigits (n / 10)).length * 10)
          = acc * 10 ^ (natToDigits (n / 10)).length * 10 := by ring
      rw [hassoc]
      omega

theorem parseDigits_full (n : Nat) (r : List Nat) (hr : headNotDigit r = true) :
    parseDigits (natToDigits n ++ r) 0 = (n, r) := by
  rw [parseDigits_natToDigits]
  cases r with
  | nil => simp [parseDigits]
  | cons b t =>
    have hb : isDigitByte b = false := by
      simpa [headNotDigit] using hr
    simp [parseDigits, hb]

theorem natToDigits_head (n : Nat) :
    ∃ d t, natToDigits n = d :: t ∧ 48 ≤ d ∧ d ≤ 57 := by
  induction n using Nat.strong_induction_on with
  | _ n ih =>
    by_cases h : n < 10
    · exact ⟨48 + n, [], by rw [natToDigits]; simp [h], by omega, by omega⟩
    · obtain ⟨d, t, hdt, h1, h2⟩ := ih (n / 10) (Nat.div_lt_self (by omega) (by omega))
      refine ⟨d, t ++ [48 + n % 10], ?_, h1, h2⟩
      rw [natToDigits]
      simp [h, hdt]

theorem unhexByte_hexDigitByte : ∀ x < 16, unhexByte (hexDigitByte x) = some x := by decide

theorem parseStr_escape (s : List Nat) :
    ∀ r : List Nat, parseStr (escapeBytes s ++ 34 :: r) = some (s, r) := by
  induction s with
  | nil => intro r; simp [escapeBytes, concatMapL, parseStr.eq_def]
  | cons b bs ih =>
    intro r
    simp only [escapeBytes, concatMapL, List.append_assoc] at *
    by_cases h34 : b = 34
    · subst h34
      rw [show escapeByte 34 = [92, 34] from rfl]
      simp only [List.cons_append, List.nil_append]
      rw [parseStr.eq_def]
      simp [ih]
    · by_cases h92 : b = 92
      · subst h92
        rw [show escapeByte 92 = [92, 92] from rfl]
        simp only [List.cons_append, List.nil_append]
        rw [parseStr.eq_def]
        simp [ih]
      · by_cases h8 : b = 8
        · subst h8
          rw [show escapeByte 8 = [92, 98] from rfl]
          simp only [List.cons_append, List.nil_append]
          rw [parseStr.eq_def]
          simp [ih]
        · by_cases h9 : b = 9
          · subst h9
            rw [show escapeByte 9 = [92, 116] from rfl]
            simp only [List.cons_append, List.nil_append]
            rw [parseStr.eq_def]
            simp [ih]
          · by_cases h10 : b = 10
            · subst h10
              rw [show escapeByte 10 = [92, 110] from rfl]
              simp only [List.cons_append, List.nil_append]
              rw [parseStr.eq_def]
              simp [ih]
            · by_cases h12 : b = 12
              · subst h12
                rw [show escapeByte 12 = [92, 102] from rfl]
                simp only [List.cons_append, List.nil_append]
                rw [parseStr.eq_def]
                simp [ih]
              · by_cases h13 : b = 13
                · subst h13
                  rw [show escapeByte 13 = [92, 114] from rfl]
                  simp only [List.cons_append, List.nil_append]
                  rw [parseStr.eq_def]
                  simp [ih]
                · by_cases hlt : b < 32
                  · have e1 : unhexByte 48 = some 0 := by decide
                    have e2 : unhexByte (48 + b / 16) = some (b / 16) := by
                      have hq : b / 16 = 0 ∨ b / 16 = 1 := by omega
                      rcases hq with hq | hq <;> rw [hq] <;> decide
                    have e3 : unhexByte (hexDigitByte (b % 16)) = some (b % 16) :=
                      unhexByte_hexDigitByte _ (by omega)
                    have hesc : escapeByte b
                        = [92, 117, 48, 48, 48 + b / 16, hexDigitByte (b % 16)] := by
                      simp [escapeByte, h34, h92, h8, h9, h10, h12, h13, hlt]
                    rw [hesc]
                    simp only [List.cons_append, List.append_assoc, List.nil_append]
                    rw [parseStr.eq_def]
                    simp [e1, e2, e3, ih]
                    have hv : 16 * (b / 16) + b % 16 = b := by omega
                    rw [hv]
                    simp [utf8Encode, show b < 128 by omega]
                  · have hesc : escapeByte b = [b] := by
                      simp [escapeByte, h34, h92, h8, h9, h10, h12, h13, hlt]
                    rw [hesc]
                    simp only [List.cons_append, List.nil_append]
                    rw [parseStr.eq_def]
                    simp [h34, h92, hlt, ih]

theorem stringify_head (v : Json) :
    ∃ b t, Json.stringify v = b :: t ∧ isWsByte b = false ∧ b ≠ 93 ∧ b ≠ 125 ∧ b ≠ 44 := by
  cases v with
  | null => exact ⟨110, _, rfl, by decide, by decide, by decide, by decide⟩
  | bool b =>
    cases b with
    | true => exact ⟨116, _, rfl, by decide, by decide, by decide, by decide⟩
    | false => exact ⟨102, _, rfl, by decide, by decide, by decide, by decide⟩
  | num n =>
    cases n with
    | ofNat m =>
      obtain ⟨d, t, hdt, h1, h2⟩ := natToDigits_head m
      refine ⟨d, t, ?_, ?_, ?_, ?_, ?_⟩
      · simpa [Json.stringify, intToBytes] using hdt
      · simp [isWsByte]; omega
      · omega
      · omega
      · omega
    | negSucc m => exact ⟨45, _, rfl, by decide, by decide, by decide, by decide⟩
  | str s => exact ⟨34, _, rfl, by decide, by decide, by decide, by decide⟩
  | arr xs =>
    cases xs with
    | nil => exact ⟨91, _, rfl, by decide, by decide, by decide, by decide⟩
    | cons x xs => exact ⟨91, _, rfl, by decide, by decide, by decide, by decide⟩
  | obj kvs =>
    cases kvs with
    | nil => exact ⟨123, _, rfl, by decide, by decide, by decide, by decide⟩
    | cons k v kvs => exact ⟨123, _, rfl, by decide, by decide, by decide, by decide⟩

theorem stringify_length_pos (v : Json) : 0 < (Json.stringify v).length := by
  obtain ⟨b, t, h, -⟩ := stringify_head v
  simp [h]

theorem stringifyItems_head (x : Json) (xs : JsonArr) :
    ∃ b t, stringifyItems (.cons x xs) = b :: t ∧ isWsByte b = false ∧ b ≠ 93 := by
  obtain ⟨b, t, h, hws, h93, -, -⟩ := stringify_head x
  cases xs with
  | nil => exact ⟨b, t, by simp [stringifyItems, h], hws, h93⟩
  | cons y ys =>
    exact ⟨b, t ++ 44 :: stringifyItems (.cons y ys), by simp [stringifyItems, h], hws, h93⟩

theorem stringifyMembers_head (k : List Nat) (v : Json) (kvs : JsonObj) :
    ∃ t, stringifyMembers (.cons k v kvs) = 34 :: t := by
  cases kvs with
  | nil =>
    exact ⟨escapeBytes k ++ 34 :: 58 :: v.stringify, by simp [stringifyMembers, strLit]⟩
  | cons k2 v2 rest =>
    exact ⟨escapeBytes k ++ 34 :: 58 :: (v.stringify ++ 44 :: stringifyMembers (.cons k2 v2 rest)),
      by simp [stringifyMembers, strLit]⟩

theorem headNotDigit_cons (b : Nat) (t : List Nat) (h : isDigitByte b = false) :
    headNotDigit (b :: t) = true := by
  simp [headNotDigit, h]

theorem parse_roundtrip_aux : ∀ fuel : Nat,
    (∀ (v : Json) (r : List Nat), (Json.stringify v).length ≤ fuel → headNotDigit r = true →
      parseVal fuel (Json.stringify v ++ r) = some (v, r))
    ∧ (∀ (x : Json) (xs : JsonArr) (r : List Nat),
        (stringifyItems (.cons x xs)).length < fuel →
        parseItems fuel (stringifyItems (.cons x xs) ++ 93 :: r) = some (.cons x xs, r))
    ∧ (∀ (k : List Nat) (v : Json) (kvs : JsonObj) (r : List Nat),
        (stringifyMembers (.cons k v kvs)).length < fuel →
        parseMembers fuel (stringifyMembers (.cons k v kvs) ++ 125 :: r)
          = some (.cons k v kvs, r)) := by
  intro fuel
  induction fuel with
  | zero =>
    refine ⟨?_, ?_, ?_⟩
    · intro v r hlen _
      have := stringify_length_pos v
      omega
    · intro x xs r hlen; omega
    · intro k v kvs r hlen; omega
  | succ fuel ih =>
    obtain ⟨ih1, ih2, ih3⟩ := ih
    refine ⟨?_, ?_, ?_⟩
    · intro v r hlen hr
      cases v with
      | null => simp [Json.stringify, parseVal, skipWs, isWsByte, isDigitByte]
      | bool b =>
        cases b with
        | true => simp [Json.stringify, parseVal, skipWs, isWsByte, isDigitByte]
        | false => simp [Json.stringify, parseVal, skipWs, isWsByte, isDigitByte]
      | num n =>
        cases n with
        | ofNat m =>
          obtain ⟨d, t, hd, h48, h57⟩ := natToDigits_head m
          have hws : isWsByte d = false := by simp [isWsByte]; omega
          have hdig : isDigitByte d = true := by simp [isDigitByte]; omega
          rw [show Json.stringify (.num (Int.ofNat m)) = natToDigits m from rfl, hd]
          simp only [List.cons_append]
          rw [parseVal.eq_def]
          simp only [skipWs_cons_of _ _ hws, hdig]
          simp only [← List.cons_append, ← hd]
          rw [parseDigits_full m r hr]
          simp
        | negSucc m =>
          obtain ⟨d, t, hd, h48, h57⟩ := natToDigits_head (m + 1)
          have hdig : isDigitByte d = true := by simp [isDigitByte]; omega
          rw [show Json.stringify (.num (Int.negSucc m)) = 45 :: natToDigits (m + 1) from rfl]
          simp only [List.cons_append]
          rw [parseVal.eq_def]
          simp only [skipWs_cons_of 45 _ (by decide)]
          rw [hd]
          simp only [List.cons_append]
          simp only [show isDigitByte 45 = false from by decide, hdig, if_false, if_true,
            Bool.false_eq_true, reduceIte]
          simp only [← List.cons_append, ← hd]
          rw [parseDigits_full (m + 1) r hr]
          rfl
      | str s =>
        rw [show Json.stringify (.str s) = 34 :: escapeBytes s ++ [34] from rfl]
        simp only [List.cons_append, List.append_assoc, List.nil_append]
        rw [parseVal.eq_def]
        simp [skipWs, isWsByte, isDigitByte, parseStr_escape]
      | arr xs =>
        cases xs with
        | nil => simp [Json.stringify, parseVal, skipWs, isWsByte, isDigitByte]
        | cons x xs =>
          obtain ⟨b, t, hbt, hws, h93⟩ := stringifyItems_head x xs
          have hil : (stringifyItems (.cons x xs)).length < fuel := by
            rw [show Json.stringify (.arr (.cons x xs))
                = 91 :: stringifyItems (.cons x xs) ++ [93] from rfl] at hlen
            simp at hlen
            omega
          rw [show Json.stringify (.arr (.cons x xs))
              = 91 :: stringifyItems (.cons x xs) ++ [93] from rfl]
          simp only [List.cons_append, List.append_assoc, List.nil_append]
          rw [parseVal.eq_def]
          simp only [skipWs_cons_of 91 _ (by decide)]
          rw [if_neg (by decide : ¬(isDigitByte 91 = true)), if_neg (by decide : ¬(91 = 45)),
            if_neg (by decide : ¬(91 = 110)), if_neg (by decide : ¬(91 = 116)),
            if_neg (by decide : ¬(91 = 102)), if_neg (by decide : ¬(91 = 34))]
          simp only [if_true]
          rw [hbt]
          simp only [List.cons_append, skipWs_cons_of b _ hws]
          have harm := ih2 x xs r hil
          rw [hbt] at harm
          simp only [List.cons_append] at harm
          split
          · rename_i r2 heq
            injection heq with h1 h2
            exact absurd h1 h93
          · simp [harm]
      | obj kvs =>
        cases kvs with
        | nil => simp [Json.stringify, parseVal, skipWs, isWsByte, isDigitByte]
        | cons k v kvs =>
          obtain ⟨t, hbt⟩ := stringifyMembers_head k v kvs
          have hil : (stringifyMembers (.cons k v kvs)).length < fuel := by
            rw [show Json.stringify (.obj (.cons k v kvs))
                = 123 :: stringifyMembers (.cons k v kvs) ++ [125] from rfl] at hlen
            simp at hlen
            omega
          rw [show Json.stringify (.obj (.cons k v kvs))
              = 123 :: stringifyMembers (.cons k v kvs) ++ [125] from rfl]
          simp only [List.cons_append, List.append_assoc, List.nil_append]
          rw [parseVal.eq_def]
          simp only [skipWs_cons_of 123 _ (by decide)]
          rw [if_neg (by decide : ¬(isDigitByte 123 = true)), if_neg (by decide : ¬(123 = 45)),
            if_neg (by decide : ¬(123 = 110)), if_neg (by decide : ¬(123 = 116)),
            if_neg (by decide : ¬(123 = 102)), if_neg (by decide : ¬(123 = 34)),
            if_neg (by decide : ¬(123 = 91))]
          simp only [if_true]
          have harm := ih3 k v kvs r hil
          rw [hbt]
          simp only [List.cons_append, skipWs_cons_of 34 _ (by decide)]
          rw [hbt] at harm
          simp only [List.cons_append] at harm
          simp [harm]
    · intro x xs r hlen
      cases xs with
      | nil =>
        have hvx : (Json.stringify x).length ≤ fuel := by
          simp [stringifyItems] at hlen
          omega
        have h1 := ih1 x (93 :: r) hvx (headNotDigit_cons 93 r (by decide))
        rw [show stringifyItems (.cons x .nil) = Json.stringify x from rfl]
        rw [parseItems.eq_def]
        simp [h1, skipWs_cons_of 93 _ (by decide)]
      | cons y ys =>
        have hpos := stringify_length_pos x
        have hvx : (Json.stringify x).length ≤ fuel := by
          rw [show stringifyItems (.cons x (.cons y ys))
              = Json.stringify x ++ 44 :: stringifyItems (.cons y ys) from rfl] at hlen
          simp at hlen
          omega
        have hil : (stringifyItems (.cons y ys)).length < fuel := by
          rw [show stringifyItems (.cons x (.cons y ys))
              = Json.stringify x ++ 44 :: stringifyItems (.cons y ys) from rfl] at hlen
          simp at hlen
          omega
        have h1 := ih1 x (44 :: (stringifyItems (.cons y ys) ++ 93 :: r)) hvx
          (headNotDigit_cons 44 _ (by decide))
        have h2 := ih2 y ys r hil
        rw [show stringifyItems (.cons x (.cons y ys))
            = Json.stringify x ++ 44 :: stringifyItems (.cons y ys) from rfl]
        simp only [List.cons_append, List.append_assoc]
        rw [parseItems.eq_def]
        simp [h1, skipWs_cons_of 44 _ (by decide), h2]
    · intro k v kvs r hlen
      cases kvs with
      | nil =>
        have hv : (Json.stringify v).length ≤ fuel := by
          simp [stringifyMembers, strLit] at hlen
          omega
        have h1 := ih1 v (125 :: r) hv (headNotDigit_cons 125 r (by decide))
        rw [show stringifyMembers (.cons k v .nil) = strLit k ++ 58 :: Json.stringify v from rfl]
        rw [show strLit k = 34 :: escapeBytes k ++ [34] from rfl]
        simp only [List.cons_append, List.append_assoc, List.nil_append]
        rw [parseMembers.eq_def]
        simp only [skipWs_cons_of 34 _ (by decide)]
        rw [show (escapeBytes k ++ (34 :: 58 :: (Json.stringify v ++ 125 :: r)))
            = escapeBytes k ++ 34 :: (58 :: (Json.stringify v ++ 125 :: r)) from rfl]
        rw [parseStr_escape k (58 :: (Json.stringify v ++ 125 :: r))]
        simp [skipWs_cons_of 58 _ (by decide), h1, skipWs_cons_of 125 _ (by decide)]
      | cons k2 v2 rest =>
        have hpos := stringify_length_pos v
        have hv : (Json.stringify v).length ≤ fuel := by
          rw [show stringifyMembers (.cons k v (.cons k2 v2 rest))
              = (strLit k ++ 58 :: v.stringify) ++ 44 :: stringifyMembers (.cons k2 v2 rest)
              from rfl] at hlen
          simp [strLit] at hlen
          omega
        have hil : (stringifyMembers (.cons k2 v2 rest)).length < fuel := by
          rw [show stringifyMembers (.cons k v (.cons k2 v2 rest))
              = (strLit k ++ 58 :: v.stringify) ++ 44 :: stringifyMembers (.cons k2 v2 rest)
              from rfl] at hlen
          simp [strLit] at hlen
          omega
        have h1 := ih1 v (44 :: (stringifyMembers (.cons k2 v2 rest) ++ 125 :: r)) hv
          (headNotDigit_cons 44 _ (by decide))
        have h2 := ih3 k2 v2 rest r hil
        rw [show stringifyMembers (.cons k v (.cons k2 v2 rest))
            = (strLit k ++ 58 :: v.stringify) ++ 44 :: stringifyMembers (.cons k2 v2 rest)
            from rfl]
        rw [show strLit k = 34 :: escapeBytes k ++ [34] from rfl]
        simp only [List.cons_append, List.append_assoc, List.nil_append]
        rw [parseMembers.eq_def]
        simp only [skipWs_cons_of 34 _ (by decide)]
        rw [show (escapeBytes k ++ (34 :: 58 ::
              (Json.stringify v ++ 44 :: (stringifyMembers (.cons k2 v2 rest) ++ 125 :: r))))
            = escapeBytes k ++ 34 :: (58 ::
              (Json.stringify v ++ 44 :: (stringifyMembers (.cons k2 v2 rest) ++ 125 :: r)))
            from rfl]
        rw [parseStr_escape k]
        simp [skipWs_cons_of 58 _ (by decide), h1, skipWs_cons_of 44 _ (by decide), h2]

/-- The parser inverts `JSON.stringify`. -/
theorem Json.parse_stringify (v : Json) : Json.parse (Json.stringify v) = some v := by
  have h := (parse_roundtrip_aux ((Json.stringify v).length + 1)).1 v [] (by omega) rfl
  rw [List.append_nil] at h
  simp [Json.parse, h, skipWs]

/-! ### Lemmas about AES-GCM: lengths, byte bounds, CTR involution -/

theorem sbox_lt (b : Nat) : sbox b < 256 :=
  Nat.lt_succ_of_le Nat.and_le_right

theorem getD_lt (l : List Nat) (i : Nat) (h : ∀ a ∈ l, a < 256) : l.getD i 0 < 256 := by
  by_cases hi : i < l.length
  · rw [List.getD_eq_getElem l 0 hi]
    exact h _ (List.getElem_mem hi)
  · rw [List.getD_eq_default l 0 (by omega)]
    omega

theorem zipWith_xor_lt (xs : List Nat) :
    ∀ ys : List Nat, (∀ a ∈ xs, a < 256) → (∀ a ∈ ys, a < 256) →
      ∀ b ∈ List.zipWith Nat.xor xs ys, b < 256 := by
  induction xs with
  | nil => intro ys _ _ b hb; simp at hb
  | cons x xs ih =>
    intro ys hx hy b hb
    cases ys with
    | nil => simp at hb
    | cons y ys =>
      rcases List.mem_cons.mp hb with hb | hb
      · subst hb
        have h256 : (256 : Nat) = 2 ^ 8 := by norm_num
        rw [h256]
        exact Nat.xor_lt_two_pow (by have := hx x (by simp); omega)
          (by have := hy y (by simp); omega)
      · exact ih ys (fun a ha => hx a (by simp [ha])) (fun a ha => hy a (by simp [ha])) b hb

theorem shiftRows_subBytes_lt (st : List Nat) :
    ∀ b ∈ shiftRows (subBytes st), b < 256 := by
  intro b hb
  simp only [shiftRows, List.mem_map] at hb
  obtain ⟨i, _, hi⟩ := hb
  subst hi
  apply getD_lt
  intro a ha
  simp only [subBytes, List.mem_map] at ha
  obtain ⟨y, _, hy⟩ := ha
  subst hy
  exact sbox_lt y

theorem roundKeyBytes_lt (ws : List Nat) (round : Nat) :
    ∀ b ∈ roundKeyBytes ws round, b < 256 := by
  intro b hb
  simp only [roundKeyBytes, List.mem_map] at hb
  obtain ⟨i, _, hi⟩ := hb
  subst hi
  exact Nat.lt_succ_of_le Nat.and_le_right

theorem shiftRows_length (st : List Nat) : (shiftRows st).length = 16 := by
  simp [shiftRows]

theorem roundKeyBytes_length (ws : List Nat) (round : Nat) :
    (roundKeyBytes ws round).length = 16 := by
  simp [roundKeyBytes]

theorem aesEncryptBlock_length (ws input : List Nat) :
    (aesEncryptBlock ws input).length = 16 := by
  simp [aesEncryptBlock, addRoundKey, shiftRows_length, roundKeyBytes_length]

theorem aesEncryptBlock_lt (ws input : List Nat) :
    ∀ b ∈ aesEncryptBlock ws input, b < 256 := by
  intro b hb
  unfold aesEncryptBlock addRoundKey at hb
  exact zipWith_xor_lt _ _ (shiftRows_subBytes_lt _) (roundKeyBytes_lt ws 14) b hb

theorem natToBytesBE_length (len n : Nat) : (natToBytesBE len n).length = len := by
  simp [natToBytesBE]

theorem natToBytesBE_lt (len n : Nat) : ∀ b ∈ natToBytesBE len n, b < 256 := by
  intro b hb
  simp only [natToBytesBE, List.mem_map] at hb
  obtain ⟨i, _, hi⟩ := hb
  subst hi
  exact Nat.lt_succ_of_le Nat.and_le_right

theorem concatMapL_length_const {α : Type} (f : α → List Nat) :
    ∀ l : List α, (∀ x ∈ l, (f x).length = 16) → (concatMapL f l).length = 16 * l.length := by
  intro l
  induction l with
  | nil => intro _; simp [concatMapL]
  | cons x xs ih =>
    intro h
    simp only [concatMapL, List.length_append, List.length_cons,
      ih (fun y hy => h y (by simp [hy])), h x (by simp)]
    omega

theorem concatMapL_mem {α : Type} (f : α → List Nat) (l : List α) (b : Nat)
    (hb : b ∈ concatMapL f l) : ∃ x ∈ l, b ∈ f x := by
  induction l with
  | nil => simp [concatMapL] at hb
  | cons x xs ih =>
    simp only [concatMapL, List.mem_append] at hb
    rcases hb with hb | hb
    · exact ⟨x, by simp, hb⟩
    · obtain ⟨y, hy, hby⟩ := ih hb
      exact ⟨y, by simp [hy], hby⟩

theorem keystream_length (ws : List Nat) (icb n : Nat) :
    (keystream ws icb n).length = n := by
  unfold keystream
  rw [List.length_take]
  rw [concatMapL_length_const _ _ (fun x _ => aesEncryptBlock_length ws _)]
  simp only [List.length_range]
  have := Nat.div_add_mod (n + 15) 16
  have := Nat.mod_lt (n + 15) (show 0 < 16 by omega)
  omega

theorem keystream_lt (ws : List Nat) (icb n : Nat) :
    ∀ b ∈ keystream ws icb n, b < 256 := by
  intro b hb
  unfold keystream at hb
  have hb2 := List.mem_of_mem_take hb
  obtain ⟨i, _, hbi⟩ := concatMapL_mem _ _ _ hb2
  exact aesEncryptBlock_lt _ _ b hbi

theorem gctr_length (ws : List Nat) (icb : Nat) (data : List Nat) :
    (gctr ws icb data).length = data.length := by
  unfold gctr
  rw [List.length_zipWith, keystream_length]
  omega

theorem gctr_lt (ws : List Nat) (icb : Nat) (data : List Nat)
    (h : ∀ b ∈ data, b < 256) : ∀ b ∈ gctr ws icb data, b < 256 := by
  unfold gctr
  exact zipWith_xor_lt _ _ h (keystream_lt ws icb _)

theorem zipWith_xor_invol (ks : List Nat) :
    ∀ xs : List Nat, xs.length ≤ ks.length →
      List.zipWith Nat.xor (List.zipWith Nat.xor xs ks) ks = xs := by
  induction ks with
  | nil =>
    intro xs h
    cases xs with
    | nil => rfl
    | cons x xs => simp at h
  | cons k ks ih =>
    intro xs h
    cases xs with
    | nil => rfl
    | cons x xs =>
      simp only [List.zipWith]
      rw [show Nat.xor (Nat.xor x k) k = x from Nat.xor_cancel_right k x]
      rw [ih xs (by simp at h; omega)]

theorem gctr_gctr (ws : List Nat) (icb : Nat) (data : List Nat) :
    gctr ws icb (gctr ws icb data) = data := by
  unfold gctr
  rw [List.length_zipWith, keystream_length, Nat.min_self]
  exact zipWith_xor_invol _ _ (by rw [keystream_length])

theorem gcmTag_length (ws : List Nat) (j0 : Nat) (c : List Nat) :
    (gcmTag ws j0 c).length = 16 := by
  unfold gcmTag
  exact natToBytesBE_length 16 _

theorem gcmTag_lt (ws : List Nat) (j0 : Nat) (c : List Nat) :
    ∀ b ∈ gcmTag ws j0 c, b < 256 := by
  unfold gcmTag
  exact natToBytesBE_lt 16 _

/-! ### Lemmas about seal and unseal -/

/-- Ciphertext bytes produced by a successful seal. -/
def sealCiphertext (iv : List Nat) (v : Json) (mk : String) : List Nat :=
  gctr (expandKey (hexDecode mk)) (inc32 (gcmJ0 (expandKey (hexDecode mk)) iv))
    (Json.stringify v)

/-- Tag bytes produced by a successful seal. -/
def sealTag (iv : List Nat) (v : Json) (mk : String) : List Nat :=
  gcmTag (expandKey (hexDecode mk)) (gcmJ0 (expandKey (hexDecode mk)) iv)
    (sealCiphertext iv v mk)

theorem sealCiphertext_lt (iv : List Nat) (v : Json) (mk : String)
    (hpt : ∀ b ∈ Json.stringify v, b < 256) :
    ∀ b ∈ sealCiphertext iv v mk, b < 256 := by
  unfold sealCiphertext
  exact gctr_lt _ _ _ hpt

theorem sealTag_lt (iv : List Nat) (v : Json) (mk : String) :
    ∀ b ∈ sealTag iv v mk, b < 256 := by
  unfold sealTag
  exact gcmTag_lt _ _ _

theorem sealTag_length (iv : List Nat) (v : Json) (mk : String) :
    (sealTag iv v mk).length = 16 := by
  unfold sealTag
  exact gcmTag_length _ _ _

theorem encryptData_ok (iv : List Nat) (v : Json) (mk : String)
    (h32 : (hexDecode mk).length = 32) (hiv : iv.length ≠ 0) :
    encryptData iv v mk
      = .ok ⟨hexEncode (sealCiphertext iv v mk), hexEncode iv,
          hexEncode (sealTag iv v mk)⟩ := by
  unfold encryptData sealCiphertext sealTag
  rw [if_neg (by omega : ¬(hexDecode mk).length ≠ 32), if_neg hiv]
  rfl

theorem encryptData_err_key (iv : List Nat) (v : Json) (mk : String)
    (h32 : (hexDecode mk).length ≠ 32) :
    encryptData iv v mk = .error .invalidKeyLength := by
  unfold encryptData
  rw [if_pos h32]

theorem decryptData_err_key (env : Envelope) (k : String)
    (h32 : (hexDecode k).length ≠ 32) :
    decryptData env k = .error .invalidKeyLength := by
  unfold decryptData
  rw [if_pos h32]

theorem decrypt_seal (v : Json) (k1 k2 : String) (iv : List Nat)
    (hk12 : hexDecode k1 = hexDecode k2)
    (h32 : (hexDecode k1).length = 32)
    (hiv16 : iv.length = 16) (hivb : ∀ b ∈ iv, b < 256)
    (hpt : ∀ b ∈ Json.stringify v, b < 256) :
    decryptData ⟨hexEncode (sealCiphertext iv v k1), hexEncode iv,
        hexEncode (sealTag iv v k1)⟩ k2 = .ok v := by
  have hct : ∀ b ∈ sealCiphertext iv v k1, b < 256 := gctr_lt _ _ _ hpt
  have hdec_iv : hexDecode (hexEncode iv) = iv := hexDecode_hexEncode iv hivb
  have hdec_ct : hexDecode (hexEncode (sealCiphertext iv v k1)) = sealCiphertext iv v k1 :=
    hexDecode_hexEncode _ hct
  have hdec_tag : hexDecode (hexEncode (sealTag iv v k1)) = sealTag iv v k1 :=
    hexDecode_hexEncode _ (gcmTag_lt _ _ _)
  have htag_len : (sealTag iv v k1).length = 16 := gcmTag_length _ _ _
  have hexp : decTagExpected
      ⟨hexEncode (sealCiphertext iv v k1), hexEncode iv, hexEncode (sealTag iv v k1)⟩ k2
      = sealTag iv v k1 := by
    unfold decTagExpected sealTag
    rw [← hk12]
    simp only [hdec_iv, hdec_ct]
  have hplain : decPlaintext
      ⟨hexEncode (sealCiphertext iv v k1), hexEncode iv, hexEncode (sealTag iv v k1)⟩ k2
      = Json.stringify v := by
    unfold decPlaintext
    rw [← hk12]
    simp only [hdec_iv, hdec_ct]
    unfold sealCiphertext
    exact gctr_gctr _ _ _
  unfold decryptData
  rw [← hk12]
  rw [if_neg (by omega : ¬(hexDecode k1).length ≠ 32)]
  simp only [hdec_iv, hdec_ct, hdec_tag, hexp, hplain, htag_len, hiv16]
  rw [if_neg (by omega : ¬(16 : Nat) = 0)]
  rw [if_neg (by decide : ¬validGcmTagLength 16 = false)]
  rw [if_pos (show sealTag iv v k1 = List.take 16 (sealTag iv v k1) from by
    rw [← htag_len, List.take_length])]
  rw [Json.parse_stringify]

theorem decryptData_iv_error (env : Envelope) (k : String)
    (h32 : (hexDecode k).length = 32) (hiv : (hexDecode env.iv).length = 0) :
    decryptData env k = .error .invalidIvLength := by
  unfold decryptData
  rw [if_neg (by omega : ¬(hexDecode k).length ≠ 32), if_pos hiv]

theorem decryptData_taglen_error (env : Envelope) (k : String)
    (h32 : (hexDecode k).length = 32) (hiv : (hexDecode env.iv).length ≠ 0)
    (htl : validGcmTagLength (hexDecode env.authTag).length = false) :
    decryptData env k = .error .invalidTagLength := by
  unfold decryptData
  rw [if_neg (by omega : ¬(hexDecode k).length ≠ 32), if_neg hiv, if_pos htl]

theorem decryptData_auth_error (env : Envelope) (k : String)
    (h32 : (hexDecode k).length = 32) (hiv : (hexDecode env.iv).length ≠ 0)
    (htl : validGcmTagLength (hexDecode env.authTag).length = true)
    (hne : hexDecode env.authTag
      ≠ (decTagExpected env k).take (hexDecode env.authTag).length) :
    decryptData env k = .error .authenticationError := by
  unfold decryptData
  rw [if_neg (by omega : ¬(hexDecode k).length ≠ 32), if_neg hiv,
    if_neg (by simp [htl]), if_neg hne]

theorem decryptData_ok_of (env : Envelope) (k : String) (w : Json)
    (h32 : (hexDecode k).length = 32) (hiv : (hexDecode env.iv).length ≠ 0)
    (htl : validGcmTagLength (hexDecode env.authTag).length = true)
    (htag : hexDecode env.authTag
      = (decTagExpected env k).take (hexDecode env.authTag).length)
    (hparse : Json.parse (decPlaintext env k) = some w) :
    decryptData env k = .ok w := by
  unfold decryptData
  rw [if_neg (by omega : ¬(hexDecode k).length ≠ 32), if_neg hiv,
    if_neg (by simp [htl]), if_pos htag, hparse]

theorem decryptData_deser_error (env : Envelope) (k : String)
    (h32 : (hexDecode k).length = 32) (hiv : (hexDecode env.iv).length ≠ 0)
    (htl : validGcmTagLength (hexDecode env.authTag).length = true)
    (htag : hexDecode env.authTag
      = (decTagExpected env k).take (hexDecode env.authTag).length)
    (hparse : Json.parse (decPlaintext env k) = none) :
    decryptData env k = .error .deserializationError := by
  unfold decryptData
  rw [if_neg (by omega : ¬(hexDecode k).length ≠ 32), if_neg hiv,
    if_neg (by simp [htl]), if_pos htag, hparse]

/-! ### Tampering with a sealed envelope -/

/-- Flip bit six of the first character of a string (a single stored-bit
flip); on a hex digit this always produces a non-hex character. -/
def flipBitSixOfFirstChar (s : String) : String :=
  match s.data with
  | [] => s
  | c :: rest => ⟨Char.ofNat (c.toNat ^^^ 64) :: rest⟩

/-- Flip bit six of the character at index `i` of a string (a single
stored-bit flip); on a hex digit this always produces a non-hex
character. -/
def flipBitSixOfChar (i : Nat) (s : String) : String :=
  match s.data.drop i with
  | [] => s
  | c :: rest => ⟨s.data.take i ++ Char.ofNat (c.toNat ^^^ 64) :: rest⟩

theorem flipBitSixOfChar_eq (i : Nat) (s : String) (c : Char) (rest : List Char)
    (h : s.data.drop i = c :: rest) :
    flipBitSixOfChar i s = ⟨s.data.take i ++ Char.ofNat (c.toNat ^^^ 64) :: rest⟩ := by
  unfold flipBitSixOfChar
  rw [h]

theorem hexVal_flip6 : ∀ x < 16, hexVal (Char.ofNat ((hexDigitChar x).toNat ^^^ 64)) = none := by
  decide

theorem hexDecodeList_invalid_head (c : Char) (cs : List Char) (h : hexVal c = none) :
    hexDecodeList (c :: cs) = [] := by
  cases cs with
  | nil => rfl
  | cons c2 rest => simp [hexDecodeList, h]

/-- The tag recomputed by `decryptData` over a sealed envelope whose tag
field was replaced (the other fields intact) is the sealed tag itself. -/
theorem decTagExpected_seal (v : Json) (k1 k2 : String) (iv : List Nat) (tag2 : String)
    (hk12 : hexDecode k1 = hexDecode k2)
    (hivb : ∀ b ∈ iv, b < 256) (hpt : ∀ b ∈ Json.stringify v, b < 256) :
    decTagExpected ⟨hexEncode (sealCiphertext iv v k1), hexEncode iv, tag2⟩ k2
      = sealTag iv v k1 := by
  unfold decTagExpected sealTag
  rw [← hk12]
  rw [hexDecode_hexEncode iv hivb,
    hexDecode_hexEncode (sealCiphertext iv v k1) (sealCiphertext_lt iv v k1 hpt)]

/-- Replacing the tag of a sealed envelope by any hex string that decodes to
an accepted tag length but does not match the corresponding prefix of the
sealed tag makes `decryptData` fail with the authentication error. -/
theorem seal_tag_replaced_auth (v : Json) (k : String) (iv : List Nat) (tag2 : String)
    (h32 : (hexDecode k).length = 32) (hiv16 : iv.length = 16)
    (hivb : ∀ b ∈ iv, b < 256) (hpt : ∀ b ∈ Json.stringify v, b < 256)
    (htl : validGcmTagLength (hexDecode tag2).length = true)
    (hne : hexDecode tag2 ≠ (sealTag iv v k).take (hexDecode tag2).length) :
    decryptData ⟨hexEncode (sealCiphertext iv v k), hexEncode iv, tag2⟩ k
      = .error .authenticationError := by
  apply decryptData_auth_error
  · exact h32
  · show (hexDecode (hexEncode iv)).length ≠ 0
    rw [hexDecode_hexEncode iv hivb, hiv16]
    omega
  · exact htl
  · show hexDecode tag2 ≠ _
    rw [decTagExpected_seal v k k iv tag2 rfl hivb hpt]
    exact hne

/-- Flipping bit six of the first character of a sealed envelope's tag field
turns it into a non-hex character, so the whole tag field hex-decodes to
zero bytes and `decryptData` fails with the tag-length error, not the
authentication error. -/
theorem seal_tagflip_invalid (v : Json) (k : String) (iv : List Nat)
    (h32 : (hexDecode k).length = 32) (hiv16 : iv.length = 16)
    (hivb : ∀ b ∈ iv, b < 256) :
    decryptData ⟨hexEncode (sealCiphertext iv v k), hexEncode iv,
        flipBitSixOfFirstChar (hexEncode (sealTag iv v k))⟩ k
      = .error .invalidTagLength := by
  have hlen : (sealTag iv v k).length = 16 := gcmTag_length _ _ _
  obtain ⟨t0, ts, hcons⟩ : ∃ t0 ts, sealTag iv v k = t0 :: ts := by
    cases h : sealTag iv v k with
    | nil => rw [h] at hlen; simp at hlen
    | cons t0 ts => exact ⟨t0, ts, rfl⟩
  have ht0 : t0 < 256 := by
    apply sealTag_lt iv v k t0
    rw [hcons]
    exact List.mem_cons_self t0 ts
  have hflip : flipBitSixOfFirstChar (hexEncode (sealTag iv v k))
      = ⟨Char.ofNat ((hexDigitChar (t0 / 16)).toNat ^^^ 64)
          :: hexDigitChar (t0 % 16) :: hexEncodeList ts⟩ := by
    rw [hcons]
    rfl
  have hnone : hexVal (Char.ofNat ((hexDigitChar (t0 / 16)).toNat ^^^ 64)) = none :=
    hexVal_flip6 _ (by omega)
  apply decryptData_taglen_error
  · exact h32
  · show (hexDecode (hexEncode iv)).length ≠ 0
    rw [hexDecode_hexEncode iv hivb, hiv16]
    omega
  · show validGcmTagLength (hexDecode (flipBitSixOfFirstChar (hexEncode (sealTag iv v k)))).length = false
    rw [hflip]
    show validGcmTagLength (hexDecodeList _).length = false
    rw [hexDecodeList_invalid_head _ _ hnone]
    rfl

/-- A sealed envelope whose stored tag field is truncated to its first 30
hex characters (15 of the 16 tag bytes) still unseals successfully: Node
accepts 15-byte GCM tags and compares only that prefix. -/
theorem seal_tag_truncated_ok (v : Json) (k : String) (iv : List Nat)
    (h32 : (hexDecode k).length = 32) (hiv16 : iv.length = 16)
    (hivb : ∀ b ∈ iv, b < 256) (hpt : ∀ b ∈ Json.stringify v, b < 256) :
    decryptData ⟨hexEncode (sealCiphertext iv v k), hexEncode iv,
        ⟨(hexEncodeList (sealTag iv v k)).take 30⟩⟩ k = .ok v := by
  have hlen : (sealTag iv v k).length = 16 := gcmTag_length _ _ _
  have hdec30 : hexDecode (⟨(hexEncodeList (sealTag iv v k)).take 30⟩ : String)
      = (sealTag iv v k).take 15 := by
    show hexDecodeList ((hexEncodeList (sealTag iv v k)).take 30) = _
    rw [show (30 : Nat) = 2 * 15 from rfl, ← hexEncodeList_take]
    exact hexDecodeList_hexEncodeList _
      (fun b hb => sealTag_lt iv v k b (List.mem_of_mem_take hb))
  have hdlen : ((sealTag iv v k).take 15).length = 15 := by
    simp [List.length_take, hlen]
  apply decryptData_ok_of
  · exact h32
  · show (hexDecode (hexEncode iv)).length ≠ 0
    rw [hexDecode_hexEncode iv hivb, hiv16]
    omega
  · show validGcmTagLength (hexDecode _).length = true
    rw [hdec30, hdlen]
    rfl
  · show hexDecode _ = _
    rw [hdec30, hdlen,
      decTagExpected_seal v k k iv ⟨(hexEncodeList (sealTag iv v k)).take 30⟩ rfl hivb hpt]
  · show Json.parse (decPlaintext _ k) = some v
    have hplain : decPlaintext ⟨hexEncode (sealCiphertext iv v k), hexEncode iv,
        ⟨(hexEncodeList (sealTag iv v k)).take 30⟩⟩ k = Json.stringify v := by
      unfold decPlaintext
      rw [hexDecode_hexEncode iv hivb,
        hexDecode_hexEncode (sealCiphertext iv v k) (sealCiphertext_lt iv v k hpt)]
      unfold sealCiphertext
      exact gctr_gctr _ _ _
    rw [hplain, Json.parse_stringify]

/-- Flipping bit six of the ninth stored character of a sealed envelope's
tag field (character index 8) makes that character non-hex, so Node's hex
decoding silently truncates the stored tag to its first 4 bytes — an
accepted GCM tag length — and the prefix comparison against the recomputed
tag passes, so `decryptData` succeeds on the tampered envelope. -/
theorem seal_tagflip8_ok (v : Json) (k : String) (iv : List Nat)
    (h32 : (hexDecode k).length = 32) (hiv16 : iv.length = 16)
    (hivb : ∀ b ∈ iv, b < 256) (hpt : ∀ b ∈ Json.stringify v, b < 256) :
    decryptData ⟨hexEncode (sealCiphertext iv v k), hexEncode iv,
        flipBitSixOfChar 8 (hexEncode (sealTag iv v k))⟩ k = .ok v := by
  have hlen : (sealTag iv v k).length = 16 := gcmTag_length _ _ _
  have h12 : ((sealTag iv v k).drop 4).length = 12 := by
    rw [List.length_drop, hlen]
  obtain ⟨t4, rest, hcons⟩ : ∃ t4 rest, (sealTag iv v k).drop 4 = t4 :: rest := by
    cases hc : (sealTag iv v k).drop 4 with
    | nil => rw [hc] at h12; simp at h12
    | cons a l => exact ⟨a, l, rfl⟩
  have ht4 : t4 < 256 := by
    apply sealTag_lt iv v k t4
    apply List.drop_subset 4 (sealTag iv v k)
    rw [hcons]
    exact List.mem_cons_self t4 rest
  have hdata : (hexEncode (sealTag iv v k)).data = hexEncodeList (sealTag iv v k) := rfl
  have hdrop8 : (hexEncodeList (sealTag iv v k)).drop 8
      = hexDigitChar (t4 / 16) :: hexDigitChar (t4 % 16) :: hexEncodeList rest := by
    rw [show (8 : Nat) = 2 * 4 from rfl, ← hexEncodeList_drop, hcons]
    rfl
  have htake8 : (hexEncodeList (sealTag iv v k)).take 8
      = hexEncodeList ((sealTag iv v k).take 4) := by
    rw [show (8 : Nat) = 2 * 4 from rfl, ← hexEncodeList_take]
  have hflip : flipBitSixOfChar 8 (hexEncode (sealTag iv v k))
      = ⟨hexEncodeList ((sealTag iv v k).take 4)
          ++ Char.ofNat ((hexDigitChar (t4 / 16)).toNat ^^^ 64)
          :: hexDigitChar (t4 % 16) :: hexEncodeList rest⟩ := by
    rw [flipBitSixOfChar_eq 8 _ _ _ (by rw [hdata, hdrop8])]
    rw [hdata, htake8]
  have hdec : hexDecode (flipBitSixOfChar 8 (hexEncode (sealTag iv v k)))
      = (sealTag iv v k).take 4 := by
    rw [hflip]
    show hexDecodeList (hexEncodeList ((sealTag iv v k).take 4) ++ _) = _
    rw [hexDecodeList_append _ _ (fun b hb => sealTag_lt iv v k b (List.mem_of_mem_take hb))]
    rw [hexDecodeList_invalid_head _ _ (hexVal_flip6 _ (by omega))]
    simp
  have hdlen : ((sealTag iv v k).take 4).length = 4 := by
    simp [List.length_take, hlen]
  apply decryptData_ok_of
  · exact h32
  · show (hexDecode (hexEncode iv)).length ≠ 0
    rw [hexDecode_hexEncode iv hivb, hiv16]
    omega
  · show validGcmTagLength (hexDecode _).length = true
    rw [hdec, hdlen]
    rfl
  · show hexDecode _ = _
    rw [hdec, hdlen,
      decTagExpected_seal v k k iv (flipBitSixOfChar 8 (hexEncode (sealTag iv v k))) rfl hivb hpt]
  · show Json.parse (decPlaintext _ k) = some v
    have hplain : decPlaintext ⟨hexEncode (sealCiphertext iv v k), hexEncode iv,
        flipBitSixOfChar 8 (hexEncode (sealTag iv v k))⟩ k = Json.stringify v := by
      unfold decPlaintext
      rw [hexDecode_hexEncode iv hivb,
        hexDecode_hexEncode (sealCiphertext iv v k) (sealCiphertext_lt iv v k hpt)]
      unfold sealCiphertext
      exact gctr_gctr _ _ _
    rw [hplain, Json.parse_stringify]

/-- `decryptData` returns a value only when the stored tag equals the
matching prefix of the recomputed tag (structural reading of the guard
chain). -/
theorem decryptData_ok_implies_tag_match (env : Envelope) (k : String) (w : Json)
    (h : decryptData env k = .ok w) :
    hexDecode env.authTag = (decTagExpected env k).take (hexDecode env.authTag).length := by
  unfold decryptData at h
  split_ifs at h with h1 h2 h3 h4
  all_goals first | exact h4 | exact Except.noConfusion h

/-! ### Lemmas about the key provider -/

theorem validKey_decode_length (k : String) (h64 : k.length = 64)
    (hhex : ∀ c ∈ k.data, isHexChar c = true) : (hexDecode k).length = 32 := by
  unfold hexDecode
  rw [hexDecodeList_length_of_hex _ hhex]
  have hd : k.data.length = 64 := h64
  omega

theorem keyLengthMsg_length (n : Nat) :
    (keyLengthMsg n).length = 64 + ((toString n).length + 12) := by
  unfold keyLengthMsg
  rw [String.length_append, String.length_append]
  have h1 : keyLengthMsgPrefix.length = 64 := by decide
  have h2 : (" characters." : String).length = 12 := by decide
  omega

theorem keyMsgs_distinct (n : Nat) :
    keyMissingMsg ≠ keyLengthMsg n ∧ keyMissingMsg ≠ keyHexMsg
      ∧ keyLengthMsg n ≠ keyHexMsg := by
  have hm : keyMissingMsg.length = 57 := by decide
  have hx : keyHexMsg.length = 56 := by decide
  have hl := keyLengthMsg_length n
  refine ⟨fun h => ?_, by decide, fun h => ?_⟩
  · have := congrArg String.length h
    omega
  · have := congrArg String.length h
    omega

/-! ### Concrete data for witnesses and counterexamples -/

/-- The 64-zero master key of the spec's concrete scenario. -/
def key0 : String := "0000000000000000000000000000000000000000000000000000000000000000"

/-- A 65-character hex string (`Buffer.from(key65, 'hex')` silently drops
the dangling nibble, yielding 32 bytes). -/
def key65 : String := "00000000000000000000000000000000000000000000000000000000000000000"

/-- A valid key written with lowercase hex letters. -/
def keyLower : String := "aaaaaaaaaaaaaaaaaaaaaaaaaaaaaaaaaaaaaaaaaaaaaaaaaaaaaaaaaaaaaaaa"

/-- The same key written with uppercase hex letters. -/
def keyUpper : String := "AAAAAAAAAAAAAAAAAAAAAAAAAAAAAAAAAAAAAAAAAAAAAAAAAAAAAAAAAAAAAAAA"

/-- A different valid key (64 ones). -/
def keyOnes : String := "1111111111111111111111111111111111111111111111111111111111111111"

/-- A 63-character hex string. -/
def key63 : String := "000000000000000000000000000000000000000000000000000000000000000"

/-- A 64-character string containing the non-hex character `g`. -/
def keyG : String := "000000000000000000000000000000000000000000000000000000000000000g"

/-- An all-zero 16-byte IV standing for one concrete draw of
`crypto.randomBytes(16)`. -/
def iv0 : List Nat := List.replicate 16 0

/-- The spec's concrete scenario value: the object for the JSON text
`\x7b"message":"test"\x7d`. -/
def v0 : Json := Json.obj (.cons [109, 101, 115, 115, 97, 103, 101]
  (.str [116, 101, 115, 116]) .nil)

/-- An envelope valid under `key0` whose decrypted byte is `x` (0x78),
which is not valid JSON; computed with the embedded AES-256-GCM. -/
def env7 : Envelope :=
  ⟨"a7", "00000000000000000000000000000000", "da6df70807540bdfc67bae5633c3f35d"⟩

/-! ### The claims -/

/-- C1: for every JSON-serializable value `v` and valid 64-character hex
master key `k`, unsealing the envelope produced by sealing `v` with `k`
(under any fresh 16-byte nonce) with the same `k` returns a value equal to
`v`: `decryptData (encryptData v k) k = v`. -/
theorem C1_roundtrip (v : Json) (k : String) (iv : List Nat)
    (hklen : k.length = 64) (hkhex : ∀ c ∈ k.data, isHexChar c = true)
    (hiv : iv.length = 16) (hivb : ∀ b ∈ iv, b < 256)
    (hv : ∀ b ∈ Json.stringify v, b < 256) :
    ∃ env, encryptData iv v k = .ok env ∧ decryptData env k = .ok v := by
  have h32 : (hexDecode k).length = 32 := validKey_decode_length k hklen hkhex
  exact ⟨_, encryptData_ok iv v k h32 (by omega),
    decrypt_seal v k k iv rfl h32 hiv hivb hv⟩

theorem C1_roundtrip_witness :
    key0.length = 64 ∧ iv0.length = 16 ∧
      (∃ env, encryptData iv0 v0 key0 = .ok env ∧ decryptData env key0 = .ok v0) :=
  ⟨by decide, by decide,
    C1_roundtrip v0 key0 iv0 (by decide) (by decide) (by decide) (by decide) (by decide)⟩

/-- C2 counterexample: flipping a single bit of a sealed envelope's
`authTag` field does not produce the authentication error the claim
promises. Bit six of the first stored character stops being hex, Node's hex
decoding silently truncates the tag to zero bytes, and `decryptData` fails
with the tag-length error instead; worse, bit six of the ninth stored
character truncates the tag to its first 4 bytes — an accepted GCM tag
length whose prefix matches the recomputed tag — and `decryptData` then
succeeds and returns the value for the tampered envelope. -/
theorem C2_counterexample :
    ∃ env, encryptData iv0 v0 key0 = .ok env ∧
      decryptData { env with authTag := flipBitSixOfFirstChar env.authTag } key0
        = .error .invalidTagLength ∧
      (Except.error .invalidTagLength : Except CryptoError Json)
        ≠ .error .authenticationError ∧
      decryptData { env with authTag := flipBitSixOfChar 8 env.authTag } key0
        = .ok v0 :=
  ⟨_, encryptData_ok iv0 v0 key0 (by decide) (by decide),
    seal_tagflip_invalid v0 key0 iv0 (by decide) (by decide) (by decide),
    by simp,
    seal_tagflip8_ok v0 key0 iv0 (by decide) (by decide) (by decide) (by decide)⟩

/-- C2 (amended): tampering with a sealed envelope is detected only when the
stored fields decode against it. Replacing the tag field by any hex text
that still decodes to 16 bytes different from the sealed tag gives the
authentication error; replacing the ciphertext field gives the
authentication error whenever the sealed tag no longer matches the first 16
bytes of the tag recomputed over the modified ciphertext; flipping a stored
tag bit that makes the first character non-hex gives the tag-length error
(hex decoding silently truncates to zero bytes), not the authentication
error; flipping a stored tag bit that makes the ninth character non-hex
truncates the tag to its first 4 bytes, an accepted length whose prefix
matches, and `decryptData` succeeds on the tampered envelope; and in
general `decryptData` never returns a value unless the stored tag equals
the matching prefix of the recomputed tag. -/
theorem C2_tamper_amended :
    (∀ (v : Json) (k : String) (iv : List Nat) (tag2 : String),
      (hexDecode k).length = 32 → iv.length = 16 → (∀ b ∈ iv, b < 256) →
      (∀ b ∈ Json.stringify v, b < 256) →
      (hexDecode tag2).length = 16 → hexDecode tag2 ≠ sealTag iv v k →
      decryptData ⟨hexEncode (sealCiphertext iv v k), hexEncode iv, tag2⟩ k
        = .error .authenticationError)
    ∧ (∀ (v : Json) (k : String) (iv : List Nat) (ct2 : String),
      (hexDecode k).length = 32 → iv.length = 16 → (∀ b ∈ iv, b < 256) →
      hexDecode (hexEncode (sealTag iv v k))
          ≠ (decTagExpected ⟨ct2, hexEncode iv, hexEncode (sealTag iv v k)⟩ k).take 16 →
      decryptData ⟨ct2, hexEncode iv, hexEncode (sealTag iv v k)⟩ k
        = .error .authenticationError)
    ∧ (∀ (v : Json) (k : String) (iv : List Nat),
      (hexDecode k).length = 32 → iv.length = 16 → (∀ b ∈ iv, b < 256) →
      decryptData ⟨hexEncode (sealCiphertext iv v k), hexEncode iv,
          flipBitSixOfFirstChar (hexEncode (sealTag iv v k))⟩ k
        = .error .invalidTagLength)
    ∧ (∀ (v : Json) (k : String) (iv : List Nat),
      (hexDecode k).length = 32 → iv.length = 16 → (∀ b ∈ iv, b < 256) →
      (∀ b ∈ Json.stringify v, b < 256) →
      decryptData ⟨hexEncode (sealCiphertext iv v k), hexEncode iv,
          flipBitSixOfChar 8 (hexEncode (sealTag iv v k))⟩ k = .ok v)
    ∧ (∀ (env : Envelope) (k : String) (w : Json),
      decryptData env k = .ok w →
      hexDecode env.authTag
        = (decTagExpected env k).take (hexDecode env.authTag).length) := by
  refine ⟨?_, ?_, ?_, ?_, ?_⟩
  · intro v k iv tag2 h32 hiv16 hivb hpt h16 hne
    apply seal_tag_replaced_auth v k iv tag2 h32 hiv16 hivb hpt
    · rw [h16]; rfl
    · rw [h16, ← sealTag_length iv v k, List.take_length]
      exact hne
  · intro v k iv ct2 h32 hiv16 hivb hne
    have hdt : hexDecode (hexEncode (sealTag iv v k)) = sealTag iv v k :=
      hexDecode_hexEncode _ (sealTag_lt iv v k)
    apply decryptData_auth_error
    · exact h32
    · show (hexDecode (hexEncode iv)).length ≠ 0
      rw [hexDecode_hexEncode iv hivb, hiv16]
      omega
    · show validGcmTagLength (hexDecode (hexEncode (sealTag iv v k))).length = true
      rw [hdt, sealTag_length]
      rfl
    · show hexDecode (hexEncode (sealTag iv v k)) ≠ _
      rw [hdt, sealTag_length]
      rw [hdt] at hne
      exact hne
  · intro v k iv h32 hiv16 hivb
    exact seal_tagflip_invalid v k iv h32 hiv16 hivb
  · intro v k iv h32 hiv16 hivb hpt
    exact seal_tagflip8_ok v k iv h32 hiv16 hivb hpt
  · intro env k w h
    exact decryptData_ok_implies_tag_match env k w h

set_option maxRecDepth 2000000 in
theorem C2_tamper_amended_witness :
    decryptData ⟨hexEncode (sealCiphertext iv0 v0 key0), hexEncode iv0,
        hexEncode (List.replicate 16 0)⟩ key0 = .error .authenticationError
    ∧ decryptData ⟨"00", hexEncode iv0, hexEncode (sealTag iv0 v0 key0)⟩ key0
        = .error .authenticationError
    ∧ decryptData ⟨hexEncode (sealCiphertext iv0 v0 key0), hexEncode iv0,
        flipBitSixOfFirstChar (hexEncode (sealTag iv0 v0 key0))⟩ key0
        = .error .invalidTagLength
    ∧ decryptData ⟨hexEncode (sealCiphertext iv0 v0 key0), hexEncode iv0,
        flipBitSixOfChar 8 (hexEncode (sealTag iv0 v0 key0))⟩ key0 = .ok v0
    ∧ hexDecode (hexEncode (sealTag iv0 v0 key0))
        = (decTagExpected ⟨hexEncode (sealCiphertext iv0 v0 key0), hexEncode iv0,
            hexEncode (sealTag iv0 v0 key0)⟩ key0).take
          (hexDecode (hexEncode (sealTag iv0 v0 key0))).length :=
  ⟨C2_tamper_amended.1 v0 key0 iv0 (hexEncode (List.replicate 16 0)) (by decide) (by decide)
      (by decide) (by decide) (by decide) (by decide),
    C2_tamper_amended.2.1 v0 key0 iv0 "00" (by decide) (by decide) (by decide) (by decide),
    C2_tamper_amended.2.2.1 v0 key0 iv0 (by decide) (by decide) (by decide),
    C2_tamper_amended.2.2.2.1 v0 key0 iv0 (by decide) (by decide) (by decide) (by decide),
    C2_tamper_amended.2.2.2.2
      ⟨hexEncode (sealCiphertext iv0 v0 key0), hexEncode iv0,
        hexEncode (sealTag iv0 v0 key0)⟩ key0 v0
      (decrypt_seal v0 key0 key0 iv0 rfl (by decide) (by decide) (by decide) (by decide))⟩

/-- C3 counterexample: two distinct valid master-key strings that differ
only in hex letter case decode to the same 32 bytes, so unsealing an
envelope sealed under one succeeds under the other instead of failing with
an authentication error. -/
theorem C3_counterexample :
    keyLower ≠ keyUpper ∧
      ∃ env, encryptData iv0 Json.null keyLower = .ok env ∧
        decryptData env keyUpper = .ok Json.null :=
  ⟨by decide,
    ⟨_, encryptData_ok iv0 Json.null keyLower (by decide) (by decide),
      decrypt_seal Json.null keyLower keyUpper iv0 (by decide) (by decide) (by decide)
        (by decide) (by decide)⟩⟩

/-- C3 (amended): unsealing the envelope sealed under `k1` with a second
valid key `k2` fails with the authentication error whenever the tag
recomputed under `k2` does not match the sealed tag (which is everything but
a negligible fraction of key pairs whose decoded bytes differ); but when
`k1` and `k2` decode to the same 32 bytes — in particular when they differ
only in hex letter case — unsealing succeeds and returns the value. -/
theorem C3_wrong_key_amended :
    (∀ (v : Json) (k1 k2 : String) (iv : List Nat),
      (hexDecode k1).length = 32 → (hexDecode k2).length = 32 →
      iv.length = 16 → (∀ b ∈ iv, b < 256) → (∀ b ∈ Json.stringify v, b < 256) →
      hexDecode (hexEncode (sealTag iv v k1))
          ≠ (decTagExpected ⟨hexEncode (sealCiphertext iv v k1), hexEncode iv,
              hexEncode (sealTag iv v k1)⟩ k2).take 16 →
      decryptData ⟨hexEncode (sealCiphertext iv v k1), hexEncode iv,
          hexEncode (sealTag iv v k1)⟩ k2 = .error .authenticationError)
    ∧ (∀ (v : Json) (k1 k2 : String) (iv : List Nat),
      hexDecode k1 = hexDecode k2 → (hexDecode k1).length = 32 →
      iv.length = 16 → (∀ b ∈ iv, b < 256) → (∀ b ∈ Json.stringify v, b < 256) →
      decryptData ⟨hexEncode (sealCiphertext iv v k1), hexEncode iv,
          hexEncode (sealTag iv v k1)⟩ k2 = .ok v) := by
  constructor
  · intro v k1 k2 iv h1 h2 hiv16 hivb hpt hne
    have hdt : hexDecode (hexEncode (sealTag iv v k1)) = sealTag iv v k1 :=
      hexDecode_hexEncode _ (sealTag_lt iv v k1)
    apply decryptData_auth_error
    · exact h2
    · show (hexDecode (hexEncode iv)).length ≠ 0
      rw [hexDecode_hexEncode iv hivb, hiv16]
      omega
    · show validGcmTagLength (hexDecode (hexEncode (sealTag iv v k1))).length = true
      rw [hdt, sealTag_length]
      rfl
    · show hexDecode (hexEncode (sealTag iv v k1)) ≠ _
      rw [hdt, sealTag_length]
      rw [hdt] at hne
      exact hne
  · intro v k1 k2 iv hk12 h32 hiv16 hivb hpt
    exact decrypt_seal v k1 k2 iv hk12 h32 hiv16 hivb hpt

set_option maxRecDepth 2000000 in
theorem C3_wrong_key_amended_witness :
    decryptData ⟨hexEncode (sealCiphertext iv0 v0 key0), hexEncode iv0,
        hexEncode (sealTag iv0 v0 key0)⟩ keyOnes = .error .authenticationError
    ∧ decryptData ⟨hexEncode (sealCiphertext iv0 Json.null keyLower), hexEncode iv0,
        hexEncode (sealTag iv0 Json.null keyLower)⟩ keyUpper = .ok Json.null :=
  ⟨C3_wrong_key_amended.1 v0 key0 keyOnes iv0 (by decide) (by decide) (by decide) (by decide)
      (by decide) (by decide),
    C3_wrong_key_amended.2 Json.null keyLower keyUpper iv0 (by decide) (by decide) (by decide)
      (by decide) (by decide)⟩

/-- C4: `getMasterKey` fails when the configured value is absent, fails when
its length is not 64 (for nonempty strings with the length message; the
empty string is reported as absent by JavaScript falsiness), fails when a
character is not hex, succeeds (returning the key) on every well-formed
64-character hex string in either case, and the three failure messages are
pairwise distinct. -/
theorem C4_key_validation :
    (getMasterKey none = .error keyMissingMsg)
    ∧ (∀ s : String, s ≠ "" → s.length ≠ 64 →
        getMasterKey (some s) = .error (keyLengthMsg s.length))
    ∧ (∀ s : String, s.length ≠ 64 → ∃ m, getMasterKey (some s) = .error m)
    ∧ (∀ s : String, s.length = 64 → s.data.all isHexChar = false →
        getMasterKey (some s) = .error keyHexMsg)
    ∧ (∀ s : String, s.length = 64 → s.data.all isHexChar = true →
        getMasterKey (some s) = .ok s)
    ∧ (∀ n : Nat, keyMissingMsg ≠ keyLengthMsg n ∧ keyMissingMsg ≠ keyHexMsg
        ∧ keyLengthMsg n ≠ keyHexMsg) := by
  refine ⟨rfl, ?_, ?_, ?_, ?_, keyMsgs_distinct⟩
  · intro s h1 h2
    unfold getMasterKey
    dsimp only
    rw [if_neg h1, if_pos h2]
  · intro s h2
    by_cases h1 : s = ""
    · exact ⟨keyMissingMsg, by subst h1; rfl⟩
    · exact ⟨keyLengthMsg s.length, by
        unfold getMasterKey
        dsimp only
        rw [if_neg h1, if_pos h2]⟩
  · intro s h64 hall
    have h1 : s ≠ "" := by
      intro he
      rw [he] at h64
      exact absurd h64 (by decide)
    unfold getMasterKey
    dsimp only
    rw [if_neg h1, if_neg (by omega : ¬s.length ≠ 64), if_pos hall]
  · intro s h64 hall
    have h1 : s ≠ "" := by
      intro he
      rw [he] at h64
      exact absurd h64 (by decide)
    unfold getMasterKey
    dsimp only
    rw [if_neg h1, if_neg (by omega : ¬s.length ≠ 64),
      if_neg (by simp [hall] : ¬s.data.all isHexChar = false)]

theorem C4_key_validation_witness :
    getMasterKey none = .error keyMissingMsg
    ∧ getMasterKey (some key63) = .error (keyLengthMsg 63)
    ∧ getMasterKey (some key65) = .error (keyLengthMsg 65)
    ∧ getMasterKey (some keyG) = .error keyHexMsg
    ∧ getMasterKey (some keyLower) = .ok keyLower
    ∧ getMasterKey (some keyUpper) = .ok keyUpper
    ∧ (keyMissingMsg ≠ keyLengthMsg 63 ∧ keyMissingMsg ≠ keyHexMsg
        ∧ keyLengthMsg 63 ≠ keyHexMsg) :=
  ⟨C4_key_validation.1,
    C4_key_validation.2.1 key63 (by decide) (by decide),
    C4_key_validation.2.1 key65 (by decide) (by decide),
    C4_key_validation.2.2.2.1 keyG (by decide) (by decide),
    C4_key_validation.2.2.2.2.1 keyLower (by decide) (by decide),
    C4_key_validation.2.2.2.2.1 keyUpper (by decide) (by decide),
    C4_key_validation.2.2.2.2.2 63⟩

/-- C5 counterexample: a 65-character hex key is a wrong-length key, yet
sealing with it does not fail fast: `Buffer.from(key, 'hex')` silently
drops the dangling nibble, leaving 32 key bytes, and `encryptData`
succeeds. -/
theorem C5_counterexample :
    key65.length = 65 ∧ (hexDecode key65).length = 32
      ∧ ∃ env, encryptData iv0 v0 key65 = .ok env :=
  ⟨by decide, by decide, ⟨_, encryptData_ok iv0 v0 key65 (by decide) (by decide)⟩⟩

/-- C5 (amended): on a proper seal the envelope's nonce is exactly the 16
random bytes, the tag is exactly 16 bytes and the key material is exactly
32 bytes, and a key whose hex decoding is not 32 bytes makes both seal and
unseal fail fast; but deviations are not always rejected: a 65-character
hex key silently loses its dangling nibble and decodes to 32 accepted
bytes, and unseal accepts a sealed envelope whose stored tag field is
truncated to 30 hex characters (15 bytes), comparing only that prefix and
returning the value. -/
theorem C5_lengths_amended :
    (∀ (v : Json) (k : String) (iv : List Nat),
      k.length = 64 → (∀ c ∈ k.data, isHexChar c = true) →
      iv.length = 16 → (∀ b ∈ iv, b < 256) →
      ∃ env, encryptData iv v k = .ok env ∧ hexDecode env.iv = iv
        ∧ (hexDecode env.authTag).length = 16 ∧ (hexDecode k).length = 32)
    ∧ (∀ (iv : List Nat) (v : Json) (k : String), (hexDecode k).length ≠ 32 →
        encryptData iv v k = .error .invalidKeyLength)
    ∧ (∀ (env : Envelope) (k : String), (hexDecode k).length ≠ 32 →
        decryptData env k = .error .invalidKeyLength)
    ∧ (∀ s : String, s.length = 65 → (∀ c ∈ s.data, isHexChar c = true) →
        (hexDecode s).length = 32)
    ∧ (∀ (v : Json) (k : String) (iv : List Nat),
      (hexDecode k).length = 32 → iv.length = 16 → (∀ b ∈ iv, b < 256) →
      (∀ b ∈ Json.stringify v, b < 256) →
      decryptData ⟨hexEncode (sealCiphertext iv v k), hexEncode iv,
          ⟨(hexEncodeList (sealTag iv v k)).take 30⟩⟩ k = .ok v) := by
  refine ⟨?_, ?_, ?_, ?_, seal_tag_truncated_ok⟩
  · intro v k iv h64 hhex hiv16 hivb
    have h32 : (hexDecode k).length = 32 := validKey_decode_length k h64 hhex
    refine ⟨_, encryptData_ok iv v k h32 (by omega), ?_, ?_, h32⟩
    · show hexDecode (hexEncode iv) = iv
      exact hexDecode_hexEncode iv hivb
    · show (hexDecode (hexEncode (sealTag iv v k))).length = 16
      rw [hexDecode_hexEncode _ (sealTag_lt iv v k), sealTag_length]
  · intro iv v k h
    exact encryptData_err_key iv v k h
  · intro env k h
    exact decryptData_err_key env k h
  · intro s h65 hhex
    unfold hexDecode
    rw [hexDecodeList_length_of_hex _ hhex]
    have hd : s.data.length = 65 := h65
    omega

theorem C5_lengths_amended_witness :
    (∃ env, encryptData iv0 v0 key0 = .ok env ∧ hexDecode env.iv = iv0
      ∧ (hexDecode env.authTag).length = 16 ∧ (hexDecode key0).length = 32)
    ∧ encryptData iv0 v0 "00" = .error .invalidKeyLength
    ∧ decryptData env7 "00" = .error .invalidKeyLength
    ∧ (hexDecode key65).length = 32
    ∧ decryptData ⟨hexEncode (sealCiphertext iv0 v0 key0), hexEncode iv0,
        ⟨(hexEncodeList (sealTag iv0 v0 key0)).take 30⟩⟩ key0 = .ok v0 :=
  ⟨C5_lengths_amended.1 v0 key0 iv0 (by decide) (by decide) (by decide) (by decide),
    C5_lengths_amended.2.1 iv0 v0 "00" (by decide),
    C5_lengths_amended.2.2.1 env7 "00" (by decide),
    C5_lengths_amended.2.2.2.1 key65 (by decide) (by decide),
    C5_lengths_amended.2.2.2.2 v0 key0 iv0 (by decide) (by decide) (by decide) (by decide)⟩

/-- C6 counterexample: `getMasterKey` returns the raw 64-character hex
string itself, not the 32 decoded key bytes: on the all-zero key it returns
the configured string, whose length is 64, while the decoded Master Key has
32 bytes. -/
theorem C6_counterexample :
    getMasterKey (some key0) = .ok key0 ∧ key0.length = 64
      ∧ (hexDecode key0).length = 32 ∧ key0.length ≠ (hexDecode key0).length :=
  ⟨rfl, by decide, by decide, by decide⟩

/-- C6 (amended): `getMasterKey` performs pure validation only and returns
the Master Key as the raw validated 64-character hex string — the callers
(`encryptData` / `decryptData`) decode it to the 32 key bytes with
`Buffer.from(key, 'hex')`. It returns exactly the configured string, and
succeeds exactly on nonempty 64-character hex strings. -/
theorem C6_returns_string_amended :
    (∀ s : String, getMasterKey (some s) = .ok s
      ↔ (s ≠ "" ∧ s.length = 64 ∧ s.data.all isHexChar = true))
    ∧ (∀ (env : Option String) (t : String), getMasterKey env = .ok t → env = some t) := by
  constructor
  · intro s
    constructor
    · intro h
      unfold getMasterKey at h
      dsimp only at h
      split_ifs at h with h1 h2 h3 <;> try exact Except.noConfusion h
      exact ⟨h1, by omega, by simpa using h3⟩
    · rintro ⟨h1, h2, h3⟩
      unfold getMasterKey
      dsimp only
      rw [if_neg h1, if_neg (by omega : ¬s.length ≠ 64),
        if_neg (by simp [h3] : ¬s.data.all isHexChar = false)]
  · intro env t h
    cases env with
    | none => simp [getMasterKey] at h
    | some s =>
      unfold getMasterKey at h
      dsimp only at h
      split_ifs at h <;> simp_all

theorem C6_returns_string_amended_witness :
    getMasterKey (some key0) = .ok key0 ∧ (some key0 : Option String) = some key0 :=
  ⟨(C6_returns_string_amended.1 key0).mpr ⟨by decide, by decide, by decide⟩,
    C6_returns_string_amended.2 (some key0) key0 rfl⟩

/-- C7: whenever decryption and tag verification succeed but the decrypted
bytes are not valid JSON, `decryptData` fails with the deserialization
error and never returns a (partial) value. -/
theorem C7_deserialization (env : Envelope) (k : String)
    (h32 : (hexDecode k).length = 32)
    (hiv : (hexDecode env.iv).length ≠ 0)
    (htl : validGcmTagLength (hexDecode env.authTag).length = true)
    (htag : hexDecode env.authTag
      = (decTagExpected env k).take (hexDecode env.authTag).length)
    (hparse : Json.parse (decPlaintext env k) = none) :
    decryptData env k = .error .deserializationError
      ∧ ∀ w, decryptData env k ≠ .ok w := by
  have h := decryptData_deser_error env k h32 hiv htl htag hparse
  exact ⟨h, fun w hw => by rw [h] at hw; exact Except.noConfusion hw⟩

set_option maxRecDepth 2000000 in
theorem C7_deserialization_witness :
    Json.parse (decPlaintext env7 key0) = none
      ∧ decryptData env7 key0 = .error .deserializationError
      ∧ ∀ w, decryptData env7 key0 ≠ .ok w :=
  ⟨by rfl,
    (C7_deserialization env7 key0 (by decide) (by decide) (by decide) (by rfl) (by rfl)).1,
    (C7_deserialization env7 key0 (by decide) (by decide) (by decide) (by rfl) (by rfl)).2⟩

/-- C9: `validateKeyOnStartup` never throws — it is a total boolean
function returning `true` exactly when `getMasterKey` succeeds and `false`
exactly when `getMasterKey` fails. -/
theorem C9_validate_on_startup (env : Option String) :
    (validateKeyOnStartup env = true ↔ ∃ k, getMasterKey env = .ok k)
    ∧ (validateKeyOnStartup env = false ↔ ∃ m, getMasterKey env = .error m) := by
  unfold validateKeyOnStartup
  cases h : getMasterKey env <;> simp [h]

/-- C10: the effective key is the decoded bytes of the hex string, not the
string: for every pair of valid 64-character hex keys whose characters have
identical hex values (differing only in letter case), unsealing under the
second key an envelope sealed under the first succeeds and returns the
value, even when the two keys differ as strings. -/
theorem C10_case_insensitive (v : Json) (k1 k2 : String) (iv : List Nat)
    (hklen : k1.length = 64) (hkhex : ∀ c ∈ k1.data, isHexChar c = true)
    (hcase : k1.data.map hexVal = k2.data.map hexVal)
    (hiv : iv.length = 16) (hivb : ∀ b ∈ iv, b < 256)
    (hv : ∀ b ∈ Json.stringify v, b < 256) :
    ∃ env, encryptData iv v k1 = .ok env ∧ decryptData env k2 = .ok v := by
  have h12 : hexDecode k1 = hexDecode k2 := by
    unfold hexDecode
    rw [hexDecodeList_eq_vals, hexDecodeList_eq_vals, hcase]
  have h32 : (hexDecode k1).length = 32 := validKey_decode_length k1 hklen hkhex
  exact ⟨_, encryptData_ok iv v k1 h32 (by omega),
    decrypt_seal v k1 k2 iv h12 h32 hiv hivb hv⟩

theorem C10_case_insensitive_witness :
    keyLower ≠ keyUpper ∧
      (∃ env, encryptData iv0 v0 keyLower = .ok env ∧ decryptData env keyUpper = .ok v0) :=
  ⟨by decide,
    C10_case_insensitive v0 keyLower keyUpper iv0 (by decide) (by decide) (by decide)
      (by decide) (by decide) (by decide)⟩

set_option maxRecDepth 2000000 in
/-- AES-256 known-answer test, FIPS-197 Appendix C.3. -/
theorem aes256_known_answer :
    aesEncryptBlock
        (expandKey (hexDecode
          "000102030405060708090a0b0c0d0e0f101112131415161718191a1b1c1d1e1f"))
        (hexDecode "00112233445566778899aabbccddeeff")
      = hexDecode "8ea2b7ca516745bfeafc49904b496089" := by
  decide

set_option maxRecDepth 2000000 in
/-- AES-256-GCM known-answer test (the McGrew-Viega test case 14): all-zero
256-bit key, all-zero 96-bit IV, one zero block of plaintext. -/
theorem gcm_known_answer :
    gctr (expandKey (List.replicate 32 0))
        (inc32 (gcmJ0 (expandKey (List.replicate 32 0)) (List.replicate 12 0)))
        (List.replicate 16 0)
      = hexDecode "cea7403d4d606b6e074ec5d3baf39d18"
    ∧ gcmTag (expandKey (List.replicate 32 0))
        (gcmJ0 (expandKey (List.replicate 32 0)) (List.replicate 12 0))
        (hexDecode "cea7403d4d606b6e074ec5d3baf39d18")
      = hexDecode "d0d1c8a799996bf0265b98b5d48ab919" := by
  constructor
  · rfl
  · rfl

end LifeJournal
